import Mathlib

/-!
Verification development for the PCDealTracker core: product-name
normalization, attribute extraction, deal detection, delisting
reconciliation and the two-pass identity resolver.

The Python source is embedded shallowly over `List Char` / `String`,
`Option ℚ` prices and explicit record states.  Python `str` / `re`
semantics are modelled at ASCII granularity (the scraped inputs are
ASCII); `\s` is the ASCII whitespace class, `\w` is `[A-Za-z0-9_]`,
and `str.lower` lowers `A`–`Z`.  Prices are embedded as rationals, so
the `0.90` factor of the deal detector is the exact rational `9/10`
(binary floating point would differ only in the 16th significant digit,
which no claim depends on).
-/

namespace PCDeal

/-! ### ASCII character model -/

def spaceChar : Char := Char.ofNat 32

/-- Python `\s` restricted to ASCII: space, tab, LF, CR, VT, FF. -/
def isSpaceChar (c : Char) : Bool :=
  c = spaceChar || c = '\t' || c = '\n' || c = '\r' || c = '\x0b' || c = '\x0c'

def isDigitChar (c : Char) : Bool := '0' ≤ c && c ≤ '9'

def isLowerChar (c : Char) : Bool := 'a' ≤ c && c ≤ 'z'

def isUpperChar (c : Char) : Bool := 'A' ≤ c && c ≤ 'Z'

/-- Python `\w` restricted to ASCII. -/
def isWordChar (c : Char) : Bool :=
  isLowerChar c || isUpperChar c || isDigitChar c || c = '_'

/-- `str.lower` on one ASCII character. -/
def lowerChar (c : Char) : Char :=
  if isUpperChar c then Char.ofNat (c.toNat + 32) else c

def lowerL (l : List Char) : List Char := l.map lowerChar

/-! ### Python `str.replace(old, "")` -/

/-- One fuel-indexed step list for `str.replace(pat, "")`: scan left to
right, drop each non-overlapping occurrence of `pat`. -/
def replaceGo (pat : List Char) : Nat → List Char → List Char
  | _, [] => []
  | 0, l => l
  | f + 1, c :: cs =>
    if pat ≠ [] && pat.isPrefixOf (c :: cs) then
      replaceGo pat f ((c :: cs).drop pat.length)
    else
      c :: replaceGo pat f cs

/-- Python `s.replace(pat, "")` (removal of every occurrence). -/
def replaceAllL (pat s : List Char) : List Char := replaceGo pat s.length s

/-- Substring test used to state "`pat` occurs nowhere in `s`". -/
def containsSubL (pat : List Char) : List Char → Bool
  | [] => pat.isPrefixOf ([] : List Char)
  | c :: cs => pat.isPrefixOf (c :: cs) || containsSubL pat cs

/-! ### The regex `\d+\s*(gb|mb|mhz|cl\d+)` of `normalize_model_strict` -/

/-- Match the unit alternation `gb|mb|mhz|cl\d+` at the head of `l`,
returning the remainder after the match. -/
def unitTail (l : List Char) : Option (List Char) :=
  if ['g', 'b'].isPrefixOf l then some (l.drop 2)
  else if ['m', 'b'].isPrefixOf l then some (l.drop 2)
  else if ['m', 'h', 'z'].isPrefixOf l then some (l.drop 3)
  else if ['c', 'l'].isPrefixOf l then
    if (l.drop 2).takeWhile isDigitChar = [] then none
    else some ((l.drop 2).dropWhile isDigitChar)
  else none

/-- Try to match `\d+\s*(gb|mb|mhz|cl\d+)` at the current position
(leftmost, with the greedy runs of `re`), returning the remainder. -/
def tryUnitAt (l : List Char) : Option (List Char) :=
  if l.takeWhile isDigitChar = [] then none
  else unitTail ((l.dropWhile isDigitChar).dropWhile isSpaceChar)

/-- `re.sub(r'\d+\s*(gb|mb|mhz|cl\d+)', '', s)`: scan positions left to
right, resuming after each match. -/
def subUnitsGo : Nat → List Char → List Char
  | _, [] => []
  | 0, l => l
  | f + 1, c :: cs =>
    match tryUnitAt (c :: cs) with
    | some rest => subUnitsGo f rest
    | none => c :: subUnitsGo f cs

def subUnitsL (l : List Char) : List Char := subUnitsGo l.length l

/-- `true` iff the unit regex matches somewhere in `l`. -/
def hasUnitMatchL : List Char → Bool
  | [] => false
  | c :: cs => (tryUnitAt (c :: cs)).isSome || hasUnitMatchL cs

/-! ### The loose-spec regex `\b\d+(\-|\s)?(core|thread|ghz|mhz|gb|mb)\b` -/

/-- Word-boundary test at the start of the remainder `l`. -/
def boundaryAt : List Char → Bool
  | [] => true
  | c :: _ => !isWordChar c

/-- Match `(core|thread|ghz|mhz|gb|mb)\b` at the head of `l` (alternatives
in the source order of the pattern). -/
def looseUnitTail (l : List Char) : Option (List Char) :=
  if ['c', 'o', 'r', 'e'].isPrefixOf l && boundaryAt (l.drop 4) then some (l.drop 4)
  else if ['t', 'h', 'r', 'e', 'a', 'd'].isPrefixOf l && boundaryAt (l.drop 6) then some (l.drop 6)
  else if ['g', 'h', 'z'].isPrefixOf l && boundaryAt (l.drop 3) then some (l.drop 3)
  else if ['m', 'h', 'z'].isPrefixOf l && boundaryAt (l.drop 3) then some (l.drop 3)
  else if ['g', 'b'].isPrefixOf l && boundaryAt (l.drop 2) then some (l.drop 2)
  else if ['m', 'b'].isPrefixOf l && boundaryAt (l.drop 2) then some (l.drop 2)
  else none

/-- Try the loose-spec pattern at the current position.  The leading `\b`
is checked by the caller; the optional `(\-|\s)?` separator is forced
whenever present because no unit alternative starts with `-` or a space
(so the regex backtrack over the optional group cannot succeed). -/
def tryLooseAt (l : List Char) : Option (List Char) :=
  if l.takeWhile isDigitChar = [] then none
  else
    match l.dropWhile isDigitChar with
    | [] => none
    | c :: cs =>
      if c = '-' || isSpaceChar c then looseUnitTail cs
      else looseUnitTail (c :: cs)

/-- `re.sub` scan for the loose-spec pattern; `prev` records whether the
character before the current position is a word character (for `\b`).
After a removed match the scan resumes with `prev = true` (a match always
ends in a letter). -/
def subLooseGo : Nat → Bool → List Char → List Char
  | _, _, [] => []
  | 0, _, l => l
  | f + 1, prev, c :: cs =>
    if prev then c :: subLooseGo f (isWordChar c) cs
    else
      match tryLooseAt (c :: cs) with
      | some rest => subLooseGo f true rest
      | none => c :: subLooseGo f (isWordChar c) cs

def subLooseL (l : List Char) : List Char := subLooseGo l.length false l

/-- `true` iff the loose-spec pattern matches somewhere in `l`, scanning
with boundary state `prev`. -/
def hasLooseMatchL : Bool → List Char → Bool
  | _, [] => false
  | prev, c :: cs =>
    (!prev && (tryLooseAt (c :: cs)).isSome) || hasLooseMatchL (isWordChar c) cs

/-! ### `[^a-z0-9\s]` removal, whitespace collapse, strip -/

def isKeptChar (c : Char) : Bool := isLowerChar c || isDigitChar c || isSpaceChar c

/-- `re.sub(r'[^a-z0-9\s]', '', s)`. -/
def keepAlnumSpace (l : List Char) : List Char := l.filter isKeptChar

/-- `re.sub(r'\s+', ' ', s)`: each maximal whitespace run becomes one space. -/
def collapseGo : Nat → List Char → List Char
  | _, [] => []
  | 0, l => l
  | f + 1, c :: cs =>
    if isSpaceChar c then spaceChar :: collapseGo f (cs.dropWhile isSpaceChar)
    else c :: collapseGo f cs

def collapseWsL (l : List Char) : List Char := collapseGo l.length l

/-- Python `str.strip()`. -/
def trimWs (l : List Char) : List Char :=
  ((l.dropWhile isSpaceChar).reverse.dropWhile isSpaceChar).reverse

/-! ### The two normalizers (`parsing.normalize_model_strict` / `_loose`) -/

/-- The keyword list `NORMALIZATION_STRIP_KEYWORDS_STRICT`, already
lowered (the source lowers each keyword before replacing). -/
def stripKeywordsStrict : List String :=
  ["oc", "edition", "gaming", "pro", "founders", "strix", "tuf", "rog",
   "aorus", "windforce", "eagle", "vision", "ventus", "suprim", "trio",
   "graphics card", "cpu", "processor", "cooler", "black", "white", "rgb",
   "argb", "ddr4", "ddr5", "gddr6x", "gddr7", "pcie", "gen4", "gen5",
   "with cooler", "(no cooler)", "wof"]

/-- `NORMALIZATION_STRIP_KEYWORDS_LOOSE = STRICT + extras`. -/
def stripKeywordsLoose : List String :=
  stripKeywordsStrict ++ ["core", "threads", "ghz", "matx", "atx", "itx", "wifi"]

def stripKeywords (kws : List String) (l : List Char) : List Char :=
  kws.foldl (fun acc kw => replaceAllL kw.data acc) l

def normalizeStrictL (l : List Char) : List Char :=
  trimWs (collapseWsL (keepAlnumSpace (subUnitsL (stripKeywords stripKeywordsStrict (lowerL l)))))

/-- `parsing.normalize_model_strict`. -/
def normalize_model_strict (s : String) : String :=
  if s = "" then "" else ⟨normalizeStrictL s.data⟩

def normalizeLooseL (l : List Char) : List Char :=
  trimWs (collapseWsL (keepAlnumSpace (subLooseL (stripKeywords stripKeywordsLoose (lowerL l)))))

/-- `parsing.normalize_model_loose`. -/
def normalize_model_loose (s : String) : String :=
  if s = "" then "" else ⟨normalizeLooseL s.data⟩

/-! ### `parsing.parse_product_name` (brand/model split) -/

def upperChar (c : Char) : Char :=
  if isLowerChar c then Char.ofNat (c.toNat - 32) else c

/-- `KNOWN_BRANDS` after the in-place stable `sort(key=len, reverse=True)`
of the source (descending length, original order on ties). -/
def knownBrands : List String :=
  ["Western Digital", "Fractal Design", "Cooler Master", "Super Flower",
   "Thermaltake", "SteelSeries", "PowerColor", "be quiet!", "ViewSonic",
   "Gigabyte", "Sapphire", "Kingston", "Phanteks", "Seasonic", "Logitech",
   "Corsair", "G.Skill", "Crucial", "Samsung", "Seagate", "Lian Li",
   "NVIDIA", "ASRock", "Noctua", "HyperX",
   "Intel", "Zotac", "Antec", "Razer",
   "ASUS", "EVGA", "NZXT", "BenQ", "Dell", "Acer",
   "AMD", "MSI", "XFX", "AOC",
   "WD", "LG"]

/-- First loop of `parse_product_name`:
`f" {brand.lower()} " in f" {name.lower()} "`. -/
def findBrandPadded (name : String) : Option String :=
  knownBrands.find? fun b =>
    containsSubL (spaceChar :: (lowerL b.data ++ [spaceChar]))
      (spaceChar :: (lowerL name.data ++ [spaceChar]))

/-- Fallback loop: `name.lower().startswith(brand.lower())`. -/
def findBrandStart (name : String) : Option String :=
  knownBrands.find? fun b => (lowerL b.data).isPrefixOf (lowerL name.data)

/-- Python `name.replace(found_brand, "", 1)`: remove the first
(case-sensitive) occurrence. -/
def removeFirstL (pat : List Char) : List Char → List Char
  | [] => []
  | c :: cs =>
    if pat ≠ [] && pat.isPrefixOf (c :: cs) then (c :: cs).drop pat.length
    else c :: removeFirstL pat cs

structure ParsedName where
  brand : Option String
  model : String
deriving Repr, DecidableEq

/-- `parsing.parse_product_name`. -/
def parse_product_name (name : String) : ParsedName :=
  match (findBrandPadded name).orElse (fun _ => findBrandStart name) with
  | some b => { brand := some b, model := ⟨trimWs (removeFirstL b.data name.data)⟩ }
  | none => { brand := none, model := name }

/-! ### Attribute extractor (`parsing.parse_product_attributes`) -/

inductive AttrVal where
  | s : String → AttrVal
  | n : Int → AttrVal
  | q : ℚ → AttrVal
deriving Repr, DecidableEq

/-- Attribute maps as insertion-ordered association lists (each source
parser assigns every key at most once). -/
abbrev AttrMap := List (String × AttrVal)

def digitsToNat (ds : List Char) : Nat :=
  ds.foldl (fun acc c => 10 * acc + (c.toNat - 48)) 0

/-- Leftmost-position scan of `re.search` for positionless matchers. -/
def scanFirst {α : Type} (f : List Char → Option α) : List Char → Option α
  | [] => none
  | c :: cs => (f (c :: cs)).orElse (fun _ => scanFirst f cs)

/-- Leftmost-position scan carrying a previous-char-is-word flag for
patterns opening with `\b`. -/
def scanFirstB {α : Type} (f : Bool → List Char → Option α) : Bool → List Char → Option α
  | _, [] => none
  | prev, c :: cs => (f prev (c :: cs)).orElse (fun _ => scanFirstB f (isWordChar c) cs)

/-- `(\d+)\s*GB` (IGNORECASE) at one position of the lowered name. -/
def gbAt (l : List Char) : Option Nat :=
  let ds := l.takeWhile isDigitChar
  if ds = [] then none
  else if ['g', 'b'].isPrefixOf ((l.dropWhile isDigitChar).dropWhile isSpaceChar) then
    some (digitsToNat ds)
  else none

/-- `(\d{2}(\.\d)?)\s*(inch|")` (IGNORECASE) at one position. -/
def sizeAt (l : List Char) : Option ℚ :=
  match l with
  | d1 :: d2 :: rest =>
    if isDigitChar d1 && isDigitChar d2 then
      let tryRest : ℚ → List Char → Option ℚ := fun v r =>
        if ['i', 'n', 'c', 'h'].isPrefixOf (r.dropWhile isSpaceChar) ||
            ['"'].isPrefixOf (r.dropWhile isSpaceChar) then some v else none
      let base : ℚ := (digitsToNat [d1, d2] : ℚ)
      match rest with
      | '.' :: d3 :: rest2 =>
        if isDigitChar d3 then
          (tryRest (base + (digitsToNat [d3] : ℚ) / 10) rest2).orElse
            (fun _ => tryRest base rest)
        else tryRest base rest
      | _ => tryRest base rest
    else none
  | _ => none

/-- `(\d{2,3})\s*hz` at one position of the lowered name. -/
def refreshAt (l : List Char) : Option Nat :=
  match l with
  | d1 :: d2 :: rest =>
    if isDigitChar d1 && isDigitChar d2 then
      let hz : List Char → Bool := fun r => ['h', 'z'].isPrefixOf (r.dropWhile isSpaceChar)
      match rest with
      | d3 :: rest2 =>
        if isDigitChar d3 && hz rest2 then some (digitsToNat [d1, d2, d3])
        else if hz rest then some (digitsToNat [d1, d2])
        else none
      | [] => if hz rest then some (digitsToNat [d1, d2]) else none
    else none
  | _ => none

/-- `(\d{4,})\s*MHz` (IGNORECASE) at one position. -/
def mhzAt (l : List Char) : Option Nat :=
  let ds := l.takeWhile isDigitChar
  if ds.length < 4 then none
  else if ['m', 'h', 'z'].isPrefixOf ((l.dropWhile isDigitChar).dropWhile isSpaceChar) then
    some (digitsToNat ds)
  else none

/-- `(\d{3,4})\s?W` (IGNORECASE) at one position. -/
def wattAt (l : List Char) : Option Nat :=
  match l with
  | d1 :: d2 :: d3 :: rest =>
    if isDigitChar d1 && isDigitChar d2 && isDigitChar d3 then
      let wAfter : List Char → Bool := fun r =>
        match r with
        | 'w' :: _ => true
        | c :: 'w' :: _ => isSpaceChar c
        | _ => false
      match rest with
      | d4 :: rest2 =>
        if isDigitChar d4 && wAfter rest2 then some (digitsToNat [d1, d2, d3, d4])
        else if wAfter rest then some (digitsToNat [d1, d2, d3])
        else none
      | [] => if wAfter rest then some (digitsToNat [d1, d2, d3]) else none
    else none
  | _ => none

/-- `\b([ZBHXW]\d{3,4})\b` (IGNORECASE) at one position; the captured
group is upper-cased as in the source. -/
def intelChipsetAt (prev : Bool) (l : List Char) : Option String :=
  if prev then none
  else
    match l with
    | c :: rest =>
      if c = 'z' || c = 'b' || c = 'h' || c = 'x' || c = 'w' then
        let ds := rest.takeWhile isDigitChar
        if ds.length = 3 && boundaryAt (rest.drop 3) then some ⟨upperChar c :: ds⟩
        else if ds.length = 4 && boundaryAt (rest.drop 4) then some ⟨upperChar c :: ds⟩
        else none
      else none
    | [] => none

/-- `\b([XBA]\d{3}E?)\b` (IGNORECASE) at one position, group upper-cased. -/
def amdChipsetAt (prev : Bool) (l : List Char) : Option String :=
  if prev then none
  else
    match l with
    | c :: rest =>
      if c = 'x' || c = 'b' || c = 'a' then
        let ds := rest.takeWhile isDigitChar
        if ds.length = 3 then
          match rest.drop 3 with
          | 'e' :: rest2 =>
            if boundaryAt rest2 then some ⟨upperChar c :: (ds ++ ['E'])⟩ else none
          | other => if boundaryAt other then some ⟨upperChar c :: ds⟩ else none
        else none
      else none
    | [] => none

/-- `\b(?<!non-)ecc\b` over the lowered name; `before` is the reversed
consumed prefix (for the boundary and the lookbehind). -/
def eccScan : List Char → List Char → Bool
  | _, [] => false
  | before, c :: cs =>
    (decide (c = 'e') && ['c', 'c'].isPrefixOf cs && boundaryAt (cs.drop 2) &&
      (match before with
        | p :: _ => !isWordChar p
        | [] => true) &&
      !(['-', 'n', 'o', 'n'].isPrefixOf before)) ||
    eccScan (c :: before) cs

/-- `(\d+(\.\d)?)\s*(TB|GB)` (IGNORECASE) at one position: value and a
`TB?` flag. -/
def capAt (l : List Char) : Option (ℚ × Bool) :=
  let ds := l.takeWhile isDigitChar
  if ds = [] then none
  else
    let base : ℚ := (digitsToNat ds : ℚ)
    let r1 := l.dropWhile isDigitChar
    let unit : List Char → Option Bool := fun r =>
      if ['t', 'b'].isPrefixOf (r.dropWhile isSpaceChar) then some true
      else if ['g', 'b'].isPrefixOf (r.dropWhile isSpaceChar) then some false
      else none
    match r1 with
    | '.' :: d :: rest2 =>
      if isDigitChar d then
        match unit rest2 with
        | some t => some (base + (digitsToNat [d] : ℚ) / 10, t)
        | none =>
          match unit r1 with
          | some t => some (base, t)
          | none => none
      else (unit r1).map (fun t => (base, t))
    | _ => (unit r1).map (fun t => (base, t))

/-- `parsing._parse_cpu`. -/
def parseCpu (name : String) : AttrMap :=
  let nl := lowerL name.data
  let has : String → Bool := fun s => containsSubL s.data nl
  let socket : Option String :=
    if has "am5" then some "AM5"
    else if has "am4" then some "AM4"
    else if has "lga1700" || has "1700" then some "LGA1700"
    else if has "lga1200" || has "1200" then some "LGA1200"
    else none
  let m0 : AttrMap :=
    match socket with
    | some s => [("socket", AttrVal.s s)]
    | none => []
  let intelSeries : Option String :=
    if has "intel" || socket = some "LGA1700" || socket = some "LGA1200" then
      if has "ultra 9" then some "Core Ultra 9"
      else if has "ultra 7" then some "Core Ultra 7"
      else if has "ultra 5" then some "Core Ultra 5"
      else if has "i9" then some "Core i9"
      else if has "i7" then some "Core i7"
      else if has "i5" then some "Core i5"
      else if has "i3" then some "Core i3"
      else none
    else none
  let m1 :=
    match intelSeries with
    | some s => m0 ++ [("intel_series", AttrVal.s s)]
    | none => m0
  let amdSeries : Option String :=
    if has "amd" || socket = some "AM5" || socket = some "AM4" then
      if has "ryzen 9" then some "Ryzen 9"
      else if has "ryzen 7" then some "Ryzen 7"
      else if has "ryzen 5" then some "Ryzen 5"
      else if has "ryzen 3" then some "Ryzen 3"
      else none
    else none
  match amdSeries with
  | some s => m1 ++ [("amd_series", AttrVal.s s)]
  | none => m1

/-- `parsing._parse_gpu`. -/
def parseGpu (name : String) : AttrMap :=
  let nl := lowerL name.data
  let has : String → Bool := fun s => containsSubL s.data nl
  let m0 : AttrMap :=
    match scanFirst gbAt nl with
    | some v => [("vram_gb", AttrVal.n (v : Int))]
    | none => []
  let series : Option String :=
    if has "rtx" then some "RTX"
    else if has "gtx" then some "GTX"
    else if has "rx" then some "RX"
    else if has "arc" then some "Arc"
    else none
  match series with
  | some s => m0 ++ [("series", AttrVal.s s)]
  | none => m0

/-- `parsing._parse_monitor`. -/
def parseMonitor (name : String) : AttrMap :=
  let nl := lowerL name.data
  let has : String → Bool := fun s => containsSubL s.data nl
  let m0 : AttrMap :=
    match scanFirst sizeAt nl with
    | some v => [("screen_size_inch", AttrVal.q v)]
    | none => []
  let res : Option String :=
    if has "4k" || has "2160p" then some "4K"
    else if has "1440p" || has "qhd" then some "1440p"
    else if has "1080p" || has "fhd" then some "1080p"
    else none
  let m1 := match res with
    | some s => m0 ++ [("resolution", AttrVal.s s)]
    | none => m0
  let panel : Option String :=
    if has "ips" then some "IPS"
    else if has "va" then some "VA"
    else if has "oled" then some "OLED"
    else if has "tn" then some "TN"
    else none
  let m2 := match panel with
    | some s => m1 ++ [("panel_type", AttrVal.s s)]
    | none => m1
  let m3 := match scanFirst refreshAt nl with
    | some v => m2 ++ [("refresh_rate_hz", AttrVal.n (v : Int))]
    | none => m2
  let hdr : Option String :=
    if has "hdr1000" then some "HDR1000"
    else if has "hdr600" then some "HDR600"
    else if has "hdr400" then some "HDR400"
    else if has "dolby vision" then some "Dolby Vision"
    else if has "hdr" then some "HDR"
    else none
  match hdr with
  | some s => m3 ++ [("hdr_level", AttrVal.s s)]
  | none => m3

/-- `parsing._parse_motherboard`. -/
def parseMotherboard (name : String) : AttrMap :=
  let nl := lowerL name.data
  let has : String → Bool := fun s => containsSubL s.data nl
  let socket : Option String :=
    if has "am5" then some "AM5"
    else if has "am4" then some "AM4"
    else if has "lga1700" then some "LGA1700"
    else if has "lga1200" then some "LGA1200"
    else none
  let m0 : AttrMap :=
    match socket with
    | some s => [("socket", AttrVal.s s)]
    | none => []
  let ff : Option String :=
    if has "e-atx" || has "eatx" then some "E-ATX"
    else if has "atx" && !has "micro-atx" then some "ATX"
    else if has "micro-atx" || has "matx" then some "Micro-ATX"
    else if has "mini-itx" || has "mitx" then some "Mini-ITX"
    else none
  let m1 := match ff with
    | some s => m0 ++ [("form_factor", AttrVal.s s)]
    | none => m0
  let intelC := scanFirstB intelChipsetAt false nl
  let amdC := scanFirstB amdChipsetAt false nl
  if socket = some "AM5" || socket = some "AM4" || has "amd" then
    match amdC with
    | some s => m1 ++ [("amd_chipset", AttrVal.s s)]
    | none => m1
  else if socket = some "LGA1700" || socket = some "LGA1200" || has "intel" then
    match intelC with
    | some s => m1 ++ [("intel_chipset", AttrVal.s s)]
    | none => m1
  else
    match intelC with
    | some s => m1 ++ [("intel_chipset", AttrVal.s s)]
    | none =>
      match amdC with
      | some s => m1 ++ [("amd_chipset", AttrVal.s s)]
      | none => m1

/-- `parsing._parse_ram`.  Note that `form_factor` and `ecc` are always
assigned (else-branch defaults in the source). -/
def parseRam (name : String) : AttrMap :=
  let nl := lowerL name.data
  let has : String → Bool := fun s => containsSubL s.data nl
  let m0 : AttrMap :=
    if has "ddr5" then [("type", AttrVal.s "DDR5")]
    else if has "ddr4" then [("type", AttrVal.s "DDR4")]
    else []
  let m1 := match scanFirst gbAt nl with
    | some v => m0 ++ [("capacity_gb", AttrVal.n (v : Int))]
    | none => m0
  let m2 := match scanFirst mhzAt nl with
    | some v => m1 ++ [("speed_mhz", AttrVal.n (v : Int))]
    | none => m1
  let m3 := m2 ++ [("form_factor", AttrVal.s (if has "sodimm" then "SODIMM" else "Desktop"))]
  m3 ++ [("ecc", AttrVal.s (if eccScan [] nl then "ECC" else "Non-ECC"))]

/-- `parsing._parse_storage`. -/
def parseStorage (name : String) : AttrMap :=
  let nl := lowerL name.data
  let has : String → Bool := fun s => containsSubL s.data nl
  let m0 : AttrMap :=
    if has "nvme" then [("type", AttrVal.s "NVMe SSD")]
    else if has "ssd" then [("type", AttrVal.s "SATA SSD")]
    else if has "hdd" || has "hard drive" then [("type", AttrVal.s "HDD")]
    else []
  let m1 := match scanFirst capAt nl with
    | some (v, isTB) =>
      m0 ++ [("capacity_gb", AttrVal.n (if isTB then Int.floor (v * 1000) else Int.floor v))]
    | none => m0
  let ff : Option String :=
    if has "m.2" then some "M.2"
    else if containsSubL "2.5".data name.data then some "2.5\""
    else if containsSubL "3.5".data name.data then some "3.5\""
    else none
  match ff with
  | some s => m1 ++ [("form_factor", AttrVal.s s)]
  | none => m1

/-- `parsing._parse_psu`. -/
def parsePsu (name : String) : AttrMap :=
  let nl := lowerL name.data
  let has : String → Bool := fun s => containsSubL s.data nl
  let m0 : AttrMap :=
    match scanFirst wattAt nl with
    | some v => [("wattage", AttrVal.n (v : Int))]
    | none => []
  let m1 :=
    if has "80 plus" || has "80+" then
      let r :=
        if has "titanium" then "80+ Titanium"
        else if has "platinum" then "80+ Platinum"
        else if has "gold" then "80+ Gold"
        else if has "silver" then "80+ Silver"
        else if has "bronze" then "80+ Bronze"
        else "80+ White"
      m0 ++ [("rating", AttrVal.s r)]
    else m0
  let modularity : Option String :=
    if has "fully modular" then some "Fully Modular"
    else if has "semi-modular" || has "semi modular" then some "Semi-Modular"
    else if has "non-modular" || has "non modular" then some "Non-Modular"
    else none
  match modularity with
  | some s => m1 ++ [("modularity", AttrVal.s s)]
  | none => m1

/-- `parsing._parse_case`. -/
def parseCase (name : String) : AttrMap :=
  let nl := lowerL name.data
  let has : String → Bool := fun s => containsSubL s.data nl
  if has "full tower" then [("size", AttrVal.s "Full Tower")]
  else if has "mid tower" then [("size", AttrVal.s "Mid Tower")]
  else if has "mini tower" then [("size", AttrVal.s "Mini Tower")]
  else if has "sff" || has "small form factor" then [("size", AttrVal.s "Small Form Factor")]
  else []

/-- `parsing._parse_cooler`. -/
def parseCooler (name : String) : AttrMap :=
  let nl := lowerL name.data
  let has : String → Bool := fun s => containsSubL s.data nl
  if has "liquid" || has "aio" then [("type", AttrVal.s "Liquid Cooler")]
  else if has "air cooler" || has "tower" then [("type", AttrVal.s "Air Cooler")]
  else []

/-- `parsing.parse_product_attributes` (category routing). -/
def parse_product_attributes (name category : String) : AttrMap :=
  let cl := lowerL category.data
  let has : String → Bool := fun s => containsSubL s.data cl
  if has "cpu" && !has "cooler" then parseCpu name
  else if has "graphics" then parseGpu name
  else if has "monitor" then parseMonitor name
  else if has "motherboard" then parseMotherboard name
  else if has "memory" || has "ram" then parseRam name
  else if has "storage" || has "ssd" || has "hdd" then parseStorage name
  else if has "power supply" || has "psu" then parsePsu name
  else if has "case" then parseCase name
  else if has "cooling" then parseCooler name
  else []

/-! ### Data model

The ORM declarations (`Product`, `PriceHistory`, `MergedProduct`,
`Category`) used by the scrapers and the merge script are not among the
extracted sources (the extracted `database.py` is an older schema), so
the record shapes are modelled from the spec (§3 data model) and from
the fields the extracted code reads and writes.  Timestamps are integers
(seconds); a day is 86400 seconds. -/

/-- Availability status (spec §3: `Available | Unavailable | EndOfLife`). -/
inductive ProductStatus where
  | available
  | unavailable
  | endOfLife
deriving Repr, DecidableEq

/-- Modelled from the spec: one `PriceHistory` row — "append-only
time-series point: listing reference, price, timestamp"; the `date`
column defaults to the insertion time. -/
structure HistEntry where
  price : ℚ
  date : ℤ
deriving Repr, DecidableEq

structure Category where
  id : Nat
  name : String
deriving Repr, DecidableEq

/-- Modelled from the spec: one stored listing (`Product` row) with the
fields the scrapers and the merge script read or write.  `history` holds
the committed `PriceHistory` rows of this listing. -/
structure ProductState where
  id : Nat
  name : String
  brand : Option String
  model : Option String
  url : String
  current_price : Option ℚ
  previous_price : Option ℚ
  image_url : Option String
  retailer_id : Nat
  category : Option Category
  normalized_model : Option String
  status : ProductStatus
  on_sale : Bool
  history : List HistEntry
deriving Repr, DecidableEq

/-- One scraped listing record (`product_data`) as handed to
`_update_product_and_detect_deal`. -/
structure Observation where
  name : String
  url : String
  price : Option ℚ
  image_url : Option String
  status : ProductStatus
deriving Repr, DecidableEq

/-! ### Deal detection (`BaseScraper._update_product_and_detect_deal`) -/

/-- Existing-listing branch of `_update_product_and_detect_deal`.  `now`
is the timestamp given to the appended history row.  The session runs
with `autoflush=False` (`dependencies.SessionLocal`), so the `min` and
`avg` queries see only the already-committed history rows in
`p.history`, not the row appended in this call. -/
def updateExisting (now : ℤ) (p : ProductState) (obs : Observation) : ProductState :=
  let enriched := parse_product_name obs.name
  let priceChanged : Bool := p.current_price ≠ obs.price
  let p1 := { p with
    name := obs.name
    brand := enriched.brand
    model := some enriched.model
    previous_price := p.current_price
    current_price := obs.price
    image_url := obs.image_url
    status := obs.status }
  match obs.price with
  | some newP =>
    if priceChanged then
      let hist2 := p.history ++ [⟨newP, now⟩]
      let lowest : Option ℚ := (p.history.map (fun e => e.price)).min?
      let c1 : Bool :=
        match lowest with
        | some lo => decide (newP ≤ lo)
        | none => false
      let c2 : Bool :=
        match p1.previous_price with
        | some pp => !(decide (pp = 0)) && decide (newP < pp * (9 / 10))
        | none => false
      let window := p.history.filter (fun e => decide (now - 30 * 86400 ≤ e.date))
      let c3 : Bool :=
        if window.isEmpty then false
        else
          let avg : ℚ := ((window.map (fun e => e.price)).sum) / (window.length : ℚ)
          !(decide (avg = 0)) && decide (newP < avg)
      { p1 with history := hist2, on_sale := c1 || c2 || c3 }
    else p1
  | none => p1

/-- New-listing branch of `_update_product_and_detect_deal`: the listing
is created with `on_sale=True` unconditionally; an initial history row
is appended only when the price is non-null. -/
def createNewBase (now : ℤ) (pid retailerId : Nat) (cat : Category)
    (obs : Observation) : ProductState :=
  let enriched := parse_product_name obs.name
  { id := pid
    name := obs.name
    brand := enriched.brand
    model := some enriched.model
    url := obs.url
    current_price := obs.price
    previous_price := obs.price
    image_url := obs.image_url
    retailer_id := retailerId
    category := some cat
    normalized_model := none
    status := obs.status
    on_sale := true
    history :=
      match obs.price with
      | some q => [⟨q, now⟩]
      | none => [] }

/-- New-product branch of `PCCGScraper.save_product_data` (the PCCG
scraper keeps its own save path and does not call the base update).
An unparsable price string yields `price? = none` and status
Unavailable; the product is created with `on_sale=False`. -/
def pccgCreateNew (now : ℤ) (pid retailerId categoryId : Nat)
    (name url : String) (price? : Option ℚ) : ProductState :=
  { id := pid
    name := name
    brand := none
    model := none
    url := url
    current_price := price?
    previous_price := none
    image_url := none
    retailer_id := retailerId
    category := some ⟨categoryId, "Graphics Cards"⟩
    normalized_model := none
    status := if price?.isSome then ProductStatus.available else ProductStatus.unavailable
    on_sale := false
    history :=
      match price? with
      | some q => [⟨q, now⟩]
      | none => [] }

/-! ### Delisting (`BaseScraper.mark_delisted_products` / `close`) -/

/-- `mark_delisted_products`: collect the URLs of this retailer's
Available listings, subtract the session's observed set, and mark every
listing whose URL is in the difference Unavailable and not on sale
(the bulk `UPDATE` filters by URL only). -/
def markDelisted (retailerId : Nat) (scraped : List String)
    (store : List ProductState) : List ProductState :=
  let dbUrls := (store.filter fun p =>
    decide (p.retailer_id = retailerId) && decide (p.status = ProductStatus.available)).map
    (fun p => p.url)
  let delisted := dbUrls.filter (fun u => !scraped.contains u)
  store.map fun p =>
    if delisted.contains p.url then
      { p with status := ProductStatus.unavailable, on_sale := false }
    else p

/-- `BaseScraper.close`: runs the delisting reconciliation
unconditionally — the shutdown flag held by the scraper is not consulted
before calling `mark_delisted_products`. -/
def closeScraper (_shutdownSet : Bool) (retailerId : Nat) (scraped : List String)
    (store : List ProductState) : List ProductState :=
  markDelisted retailerId scraped store

/-! ### Identity resolver (`scripts/merge_products.py`)

The session of the merge script is `dependencies.SessionLocal`
(`autoflush=False`) and the script commits once after Pass 1 and once
after each category of Pass 2.  `SELECT` statements therefore see only
committed rows: the resolver state is split into `committed` merged
products (visible to the candidate and exact-name queries) and
`pending` ones (added in the current category, invisible until its
commit). -/

/-- `SIMILARITY_THRESHOLD` of `merge_products.py`. -/
def SIMILARITY_THRESHOLD : Nat := 96

/-- Modelled from the spec: a `MergedProduct` (CanonicalProduct) row —
canonical display name, brand, model, category reference, attribute
map, member listings. -/
structure MergedProduct where
  canonical_name : String
  brand : Option String
  model : Option String
  category_id : Option Nat
  attributes : AttrMap
  products : List ProductState
deriving Repr, DecidableEq

/-- The whole store as the resolver sees it. -/
structure Store where
  products : List ProductState
  merged : List MergedProduct
deriving Repr, DecidableEq

/-- `product.merged_products` membership, keyed by the listing id. -/
def memberOfAny (p : ProductState) (mps : List MergedProduct) : Bool :=
  mps.any fun m => m.products.any fun q => q.id = p.id

/-- `if product.normalized_model and product.normalized_model.strip():`
(truthiness of the string and of its strip). -/
def hasValidKey (p : ProductState) : Bool :=
  match p.normalized_model with
  | some k => !(decide (k = "")) && !(decide (trimWs k.data = []))
  | none => false

/-- The Pass-1 grouping key `(product.category_id, product.normalized_model)`. -/
def keyOf (p : ProductState) : Option Nat × String :=
  (p.category.map (fun c => c.id), p.normalized_model.getD "")

/-- Keys in order of first occurrence (Python dict insertion order). -/
def firstOcc {α : Type} [DecidableEq α] (l : List α) : List α :=
  l.foldl (fun acc k => if k ∈ acc then acc else acc ++ [k]) []

/-- The members of one Pass-1 group, in input order. -/
def groupMembers (ps : List ProductState) (k : Option Nat × String) : List ProductState :=
  (ps.filter hasValidKey).filter (fun p => decide (keyOf p = k))

/-- `max([p.name for p in listings], key=len)`: the first name of
maximal length. -/
def longestFirst : List String → String
  | [] => ""
  | h :: t => t.foldl (fun best n => if best.length < n.length then n else best) h

/-- The CanonicalProduct created for one Pass-1 group.  (If the group's
category were `None` the Python would crash on
`first_product.category.name`; the name defaults to `""` here, and every
theorem about Pass 1 concerns groups with a category.) -/
def mkPass1MP (ps : List ProductState) (k : Option Nat × String) : MergedProduct :=
  let listings := groupMembers ps k
  let canonical := longestFirst (listings.map (fun p => p.name))
  { canonical_name := canonical
    brand := (listings.head?.map (fun p => p.brand)).join
    model := (listings.head?.map (fun p => p.model)).join
    category_id := k.1
    attributes :=
      parse_product_attributes canonical
        (((listings.head?.map (fun p => p.category)).join.map (fun c => c.name)).getD "")
    products := listings }

/-- Pass 1: returns the created CanonicalProducts (in key order) and the
leftover listings (no-key listings in input order, then the members of
the size-one groups in key order). -/
def pass1 (ps : List ProductState) : List MergedProduct × List ProductState :=
  let keyed := ps.filter hasValidKey
  let unkeyed := ps.filter (fun p => !hasValidKey p)
  let keys := firstOcc (keyed.map keyOf)
  let created := (keys.filter (fun k => decide (2 ≤ (groupMembers ps k).length))).map (mkPass1MP ps)
  let singles := (keys.filter (fun k => decide ((groupMembers ps k).length ≤ 1))).flatMap (groupMembers ps)
  (created, unkeyed ++ singles)

/-- The Pass-2 candidate fold: first index (into `committed`) of the
strictly-highest-scoring same-category canonical name, with the score
(`score > highest_score`, initial highest 0). -/
def bestCandidate (score : String → String → Nat) (name : String)
    (committed : List MergedProduct) (catId : Nat) : Option Nat × Nat :=
  (committed.enum.filter (fun im => decide (im.2.category_id = some catId))).foldl
    (fun acc im =>
      if acc.2 < score name im.2.canonical_name then (some im.1, score name im.2.canonical_name)
      else acc)
    (none, 0)

/-- `best_match.products.append(product)` on the `i`-th merged product. -/
def attachAt (mps : List MergedProduct) (i : Nat) (p : ProductState) : List MergedProduct :=
  match mps[i]? with
  | some m => mps.set i { m with products := m.products ++ [p] }
  | none => mps

/-- The CanonicalProduct created for a single unmatched Pass-2 listing. -/
def mkSingleMP (catName : String) (catId : Nat) (p : ProductState) : MergedProduct :=
  { canonical_name := p.name
    brand := p.brand
    model := p.model
    category_id := some catId
    attributes := parse_product_attributes p.name catName
    products := [p] }

/-- Pass 2, one listing.  The in-session re-check (`db_product.merged_products`)
is modelled over the current session state; it only ever differs from
the committed association rows for inputs containing a duplicated
listing id, which the theorems exclude.  The exact-name fallback uses
`scalar_one_or_none`, which raises when several committed rows share
the name — the `Except.error` case. -/
def pass2Product (score : String → String → Nat) (catId : Nat) (catName : String)
    (st : List MergedProduct × List MergedProduct) (p : ProductState) :
    Except Unit (List MergedProduct × List MergedProduct) :=
  let committed := st.1
  let pending := st.2
  if memberOfAny p committed || memberOfAny p pending then Except.ok st
  else
    let bh := bestCandidate score p.name committed catId
    if SIMILARITY_THRESHOLD ≤ bh.2 && bh.1.isSome then
      match bh.1 with
      | some i => Except.ok (attachAt committed i p, pending)
      | none => Except.ok st
    else
      match (committed.enum.filter (fun im => decide (im.2.canonical_name = p.name))).map
          (fun im => im.1) with
      | [] => Except.ok (committed, pending ++ [mkSingleMP catName catId p])
      | [i] => Except.ok (attachAt committed i p, pending)
      | _ => Except.error ()

/-- Pass 2 over one category: fold the listings, then commit (pending
rows become visible).  An exception rolls the category back. -/
def pass2Category (score : String → String → Nat) (committed : List MergedProduct)
    (catId : Nat) (catName : String) (members : List ProductState) :
    Except Unit (List MergedProduct) :=
  (members.foldlM (pass2Product score catId catName) (committed, [])).map
    (fun st => st.1 ++ st.2)

/-- Pass 2 over the category groups in order; an exception aborts the
remaining categories, keeping the commits made so far (`false` flag). -/
def pass2All (score : String → String → Nat) :
    List MergedProduct → List (Nat × String × List ProductState) → List MergedProduct × Bool
  | committed, [] => (committed, true)
  | committed, g :: gs =>
    match pass2Category score committed g.1 g.2.1 g.2.2 with
    | Except.ok c2 => pass2All score c2 gs
    | Except.error _ => (committed, false)

/-- `products_by_category`: the categorized leftovers grouped by
`category_id` in first-occurrence order; the category display name is
taken from the first member. -/
def catGroups (ls : List ProductState) : List (Nat × String × List ProductState) :=
  let withCat := ls.filter (fun p => p.category.isSome)
  let cidOf : ProductState → Nat := fun p => ((p.category.map (fun c => c.id)).getD 0)
  (firstOcc (withCat.map cidOf)).map fun i =>
    let members := withCat.filter (fun p => decide (cidOf p = i))
    (i, ((members.head?.map (fun p => p.category)).join.map (fun c => c.name)).getD "N/A",
      members)

/-- `merge_products_with_fuzzy_logic`: select the not-yet-merged
listings, run Pass 1, commit, run Pass 2 per category.  The boolean is
`false` when the run was aborted by an exception (after rollback of the
failing category and skipping the rest). -/
def mergeRun (score : String → String → Nat) (store : Store) : Store × Bool :=
  let unmerged := store.products.filter (fun p => !memberOfAny p store.merged)
  if unmerged.isEmpty then (store, true)
  else
    let pr := pass1 unmerged
    let committed := store.merged ++ pr.1
    let res := pass2All score committed (catGroups pr.2)
    ({ store with merged := res.1 }, res.2)

/-! ### Concrete states for counterexamples and witnesses -/

def gpuCat : Category := ⟨5, "Graphics Cards"⟩

/-- A stored listing with a price but no committed history rows (the
state left by an ingest whose first observation had no parsable price,
or by the administrative history-cascade deletion described in the spec). -/
def dealCxProduct : ProductState :=
  { id := 1, name := "Widget GPU", brand := none, model := none, url := "https://r/w",
    current_price := some 100, previous_price := none, image_url := none,
    retailer_id := 1, category := some gpuCat, normalized_model := none,
    status := ProductStatus.available, on_sale := false, history := [] }

def dealCxObs : Observation :=
  { name := "Widget GPU", url := "https://r/w", price := some 95, image_url := none,
    status := ProductStatus.available }

def dealWProduct : ProductState :=
  { id := 2, name := "Widget GPU", brand := none, model := none, url := "https://r/w2",
    current_price := some 950, previous_price := some 999, image_url := none,
    retailer_id := 1, category := some gpuCat, normalized_model := none,
    status := ProductStatus.available, on_sale := false,
    history := [⟨999, 0⟩, ⟨950, 3000000⟩] }

def dealWObs : Observation :=
  { name := "Widget GPU", url := "https://r/w2", price := some 900, image_url := none,
    status := ProductStatus.available }

def delistCxProduct : ProductState :=
  { id := 3, name := "Stale GPU", brand := none, model := none, url := "https://r1/a",
    current_price := some 500, previous_price := none, image_url := none,
    retailer_id := 1, category := some gpuCat, normalized_model := none,
    status := ProductStatus.available, on_sale := true, history := [] }

def delistWProduct : ProductState :=
  { id := 4, name := "Gone GPU", brand := none, model := none, url := "https://r1/b",
    current_price := some 700, previous_price := none, image_url := none,
    retailer_id := 1, category := some gpuCat, normalized_model := none,
    status := ProductStatus.available, on_sale := true, history := [] }

def c7Product : ProductState :=
  { id := 5, name := "Priced GPU", brand := none, model := none, url := "https://r/p",
    current_price := some 100, previous_price := none, image_url := none,
    retailer_id := 1, category := some gpuCat, normalized_model := none,
    status := ProductStatus.available, on_sale := false, history := [⟨100, 0⟩] }

def c7Obs : Observation :=
  { name := "Priced GPU", url := "https://r/p", price := none, image_url := none,
    status := ProductStatus.unavailable }

def frameWProduct : ProductState :=
  { id := 6, name := "Old Name", brand := none, model := none, url := "https://r/f",
    current_price := some 100, previous_price := some 120, image_url := none,
    retailer_id := 1, category := some gpuCat, normalized_model := none,
    status := ProductStatus.available, on_sale := true, history := [⟨100, 0⟩] }

def frameWObs : Observation :=
  { name := "MSI New Name", url := "https://r/f", price := some 100,
    image_url := some "https://img", status := ProductStatus.available }

def ramCxName : String := "Corsair Vengeance 32GB DDR5 6000MHz"

def pass1WLeft : ProductState :=
  { id := 7, name := "ASUS ROG Strix RTX 4070 OC 12GB", brand := some "ASUS", model := none,
    url := "https://ra/1", current_price := some 100, previous_price := none, image_url := none,
    retailer_id := 1, category := some gpuCat, normalized_model := some "asus geforce rtx 4070",
    status := ProductStatus.available, on_sale := false, history := [] }

def pass1WRight : ProductState :=
  { id := 8, name := "Asus Strix GeForce RTX 4070 OC Edition 12GB GDDR6X", brand := some "ASUS",
    model := none, url := "https://rb/1", current_price := some 110, previous_price := none,
    image_url := none, retailer_id := 2, category := some gpuCat,
    normalized_model := some "asus geforce rtx 4070",
    status := ProductStatus.available, on_sale := false, history := [] }

def pass1WKeyless : ProductState :=
  { id := 9, name := "Oddball GPU X123", brand := none, model := none, url := "https://rc/1",
    current_price := some 90, previous_price := none, image_url := none,
    retailer_id := 3, category := some gpuCat, normalized_model := none,
    status := ProductStatus.available, on_sale := false, history := [] }

def c3Candidate : MergedProduct :=
  { canonical_name := "Foo GPU 12GB", brand := none, model := none,
    category_id := some 5, attributes := [], products := [] }

def c3Listing : ProductState :=
  { id := 10, name := "Foo GPU OC 12GB", brand := none, model := none, url := "https://rd/1",
    current_price := some 80, previous_price := none, image_url := none,
    retailer_id := 1, category := some gpuCat, normalized_model := none,
    status := ProductStatus.available, on_sale := false, history := [] }

def c8Store : Store :=
  { products := [pass1WLeft, pass1WRight, pass1WKeyless], merged := [] }

def zeroScore : String → String → Nat := fun _ _ => 0

def c3Score : String → String → Nat := fun _ _ => 96

def monitorCat : Category := ⟨7, "Monitors"⟩

/-- Two keyless Monitors listings sharing one name.  In one Pass-2
Monitors batch each fails fuzzy matching, each passes the global
exact-name lookup (the other's row is still pending and invisible with
autoflush=False), so each creates its own CanonicalProduct, and the
category commit materializes both. -/
def c3DupSrcA : ProductState :=
  { id := 21, name := "Iris Panel 24", brand := none, model := none, url := "https://re/1",
    current_price := some 300, previous_price := none, image_url := none,
    retailer_id := 1, category := some monitorCat, normalized_model := none,
    status := ProductStatus.available, on_sale := false, history := [] }

def c3DupSrcB : ProductState :=
  { c3DupSrcA with id := 22, url := "https://rf/1", retailer_id := 2 }

/-- The two committed CanonicalProducts sharing the canonical name
"Iris Panel 24" that the batch above leaves behind. -/
def c3DupA : MergedProduct := mkSingleMP "Monitors" 7 c3DupSrcA

def c3DupB : MergedProduct := mkSingleMP "Monitors" 7 c3DupSrcB

/-- A later listing of the same name in a different category. -/
def c3DupListing : ProductState :=
  { id := 23, name := "Iris Panel 24", brand := none, model := none, url := "https://rg/1",
    current_price := some 280, previous_price := none, image_url := none,
    retailer_id := 3, category := some gpuCat, normalized_model := none,
    status := ProductStatus.available, on_sale := false, history := [] }

def idemWInput : String := "ASUS RTX Card"

/-! ### Whitespace normal forms (used to reason about re-normalization) -/

def headNotSpace : List Char → Bool
  | [] => true
  | d :: _ => !isSpaceChar d

/-- Every whitespace character is a plain space and no two whitespace
characters are adjacent — the shape `\s+ → ' '` leaves behind. -/
def wsClean : List Char → Bool
  | [] => true
  | c :: cs =>
    (if isSpaceChar c then decide (c = spaceChar) && headNotSpace cs else true) && wsClean cs

/-! ### Lemmas: the rewriting scanners are the identity when nothing matches -/

theorem replaceGo_of_not_contains (pat : List Char) (s : List Char)
    (h : containsSubL pat s = false) : ∀ f, replaceGo pat f s = s := by
  induction s with
  | nil => intro f; cases f <;> rfl
  | cons c cs ih =>
    intro f
    simp only [containsSubL, Bool.or_eq_false_iff] at h
    cases f with
    | zero => rfl
    | succ f =>
      simp only [replaceGo, h.1, Bool.and_false, Bool.false_eq_true, if_neg,
        ne_eq, Bool.and_eq_true, decide_eq_true_eq, not_false_eq_true]
      rw [ih h.2 f]

theorem replaceAllL_of_not_contains (pat s : List Char)
    (h : containsSubL pat s = false) : replaceAllL pat s = s :=
  replaceGo_of_not_contains pat s h s.length

theorem subUnitsGo_of_no_match (s : List Char)
    (h : hasUnitMatchL s = false) : ∀ f, subUnitsGo f s = s := by
  induction s with
  | nil => intro f; cases f <;> rfl
  | cons c cs ih =>
    intro f
    simp only [hasUnitMatchL, Bool.or_eq_false_iff] at h
    cases f with
    | zero => rfl
    | succ f =>
      cases htu : tryUnitAt (c :: cs) with
      | some rest => rw [htu] at h; exact absurd h.1 (by simp)
      | none =>
        simp only [subUnitsGo, htu]
        rw [ih h.2 f]

theorem subUnitsL_of_no_match (s : List Char)
    (h : hasUnitMatchL s = false) : subUnitsL s = s :=
  subUnitsGo_of_no_match s h s.length

theorem subLooseGo_of_no_match (s : List Char) :
    ∀ prev, hasLooseMatchL prev s = false → ∀ f, subLooseGo f prev s = s := by
  induction s with
  | nil => intro prev _ f; cases f <;> rfl
  | cons c cs ih =>
    intro prev h f
    simp only [hasLooseMatchL, Bool.or_eq_false_iff, Bool.and_eq_false_iff] at h
    cases f with
    | zero => rfl
    | succ f =>
      by_cases hp : prev
      · simp only [subLooseGo, hp, if_true]
        rw [ih (isWordChar c) h.2 f]
      · have hnone : tryLooseAt (c :: cs) = none := by
          rcases h.1 with h1 | h1
          · simp [hp] at h1
          · cases htl : tryLooseAt (c :: cs) with
            | some rest => rw [htl] at h1; simp at h1
            | none => rfl
        simp [subLooseGo, hp, hnone, ih (isWordChar c) h.2 f]

theorem subLooseL_of_no_match (s : List Char)
    (h : hasLooseMatchL false s = false) : subLooseL s = s :=
  subLooseGo_of_no_match s false h s.length

/-! ### Helper lemmas for attribute maps -/

theorem lookup_isSome_append (k : String) (l₁ l₂ : AttrMap) :
    (List.lookup k (l₁ ++ l₂)).isSome =
      ((List.lookup k l₁).isSome || (List.lookup k l₂).isSome) := by
  induction l₁ with
  | nil => simp [List.lookup]
  | cons h t ih =>
    obtain ⟨k', v⟩ := h
    by_cases hk : k == k'
    · simp [List.lookup, hk]
    · have hk' : (k == k') = false := by simpa using hk
      simp [List.lookup, hk', ih]

/-! ### C6: on-sale flag of newly created listings -/

/-- C6 fails on the code as stated: the PCCG scraper keeps its own save
path (`PCCGScraper.save_product_data`), and that path creates brand-new
listings with the on-sale flag false — here a concrete new Graphics
Cards listing with a parsed price. -/
theorem pccg_new_listing_not_on_sale :
    (pccgCreateNew 0 100 1 5 "MSI GeForce RTX 4070 12GB" "https://pccg/x"
      (some 1099)).on_sale = false := rfl

/-- C6 (amended): every listing created through the shared
`BaseScraper._update_product_and_detect_deal` ingest path is created
with the on-sale flag set to true, unconditionally — regardless of its
price or any other field.  The PCCG scraper's standalone save path is
the exception recorded in the counterexample. -/
theorem base_new_listing_on_sale (now : ℤ) (pid rid : Nat) (cat : Category)
    (obs : Observation) : (createNewBase now pid rid cat obs).on_sale = true := rfl

/-! ### C7: when is a price-history row appended -/

/-- C7 fails on the code as stated: a stored listing whose observed
price differs from the stored current price (here: stored 100, observed
null after a parse failure) gets no new history row, because the append
is guarded by `price_changed and product.current_price is not None`. -/
theorem history_append_counterexample :
    c7Obs.price ≠ c7Product.current_price ∧
    (updateExisting 5 c7Product c7Obs).history = c7Product.history := by
  constructor
  · decide
  · decide

/-- C7 (amended): for an already-stored listing, a history row is
appended if and only if the observed price differs from the stored
current price AND the observed price is non-null; the appended row
carries the observed price and the current timestamp. -/
theorem history_append_amended (now : ℤ) (p : ProductState) (obs : Observation) :
    (updateExisting now p obs).history =
      match obs.price with
      | some q => if p.current_price ≠ some q then p.history ++ [⟨q, now⟩] else p.history
      | none => p.history := by
  unfold updateExisting
  cases hop : obs.price with
  | none => simp
  | some q =>
    by_cases hc : p.current_price = some q
    · simp [hc]
    · simp [hc]

/-! ### C9: Memory extractor always emits form-factor and ECC keys -/

/-- C9 fails on the code as stated: for a Memory-category name that
mentions neither SODIMM nor ECC, the form-factor and ECC keys are not
absent — `_parse_ram` fills them with the defaults Desktop / Non-ECC. -/
theorem ram_defaults_counterexample :
    containsSubL "sodimm".data (lowerL ramCxName.data) = false ∧
    eccScan [] (lowerL ramCxName.data) = false ∧
    List.lookup "form_factor" (parse_product_attributes ramCxName "Memory") =
      some (AttrVal.s "Desktop") ∧
    List.lookup "ecc" (parse_product_attributes ramCxName "Memory") =
      some (AttrVal.s "Non-ECC") := by
  refine ⟨by decide, by decide, by decide, by decide⟩

/-- C9 (amended): the extractor returns maps with no null placeholders,
and unevidenced attributes are absent keys for the other category
extractors, but the Memory extractor always emits the `form_factor` and
`ecc` keys (defaulting to Desktop and Non-ECC when the name shows no
SODIMM or word-boundary ECC evidence): for every name, both keys are
present in the Memory-category result. -/
theorem ram_attrs_always_present (name : String) :
    (List.lookup "form_factor" (parse_product_attributes name "Memory")).isSome = true ∧
    (List.lookup "ecc" (parse_product_attributes name "Memory")).isSome = true := by
  have hred : parse_product_attributes name "Memory" = parseRam name := rfl
  rw [hred]
  unfold parseRam
  constructor
  · rw [List.append_assoc, lookup_isSome_append]
    simp [List.lookup]
  · rw [List.append_assoc, lookup_isSome_append]
    simp [List.lookup]

/-! ### C10: frame effect of a no-change observation -/

/-- C10: re-ingesting an already-stored listing whose observed price
equals the stored current price leaves history and on-sale untouched but
overwrites name, brand, model, image URL and status from the
observation, and sets previous_price to the unchanged current price
(so previous_price = current_price afterwards). -/
theorem no_change_frame_update (now : ℤ) (p : ProductState) (obs : Observation)
    (h : obs.price = p.current_price) :
    updateExisting now p obs = { p with
      name := obs.name
      brand := (parse_product_name obs.name).brand
      model := some (parse_product_name obs.name).model
      previous_price := p.current_price
      current_price := p.current_price
      image_url := obs.image_url
      status := obs.status } := by
  unfold updateExisting
  cases hop : obs.price with
  | none =>
    rw [hop] at h
    simp [← h]
  | some q =>
    rw [hop] at h
    simp [← h]

/-- Witness for C10 at a concrete listing and observation. -/
theorem no_change_frame_update_witness :
    updateExisting 7 frameWProduct frameWObs = { frameWProduct with
      name := frameWObs.name
      brand := (parse_product_name frameWObs.name).brand
      model := some (parse_product_name frameWObs.name).model
      previous_price := frameWProduct.current_price
      current_price := frameWProduct.current_price
      image_url := frameWObs.image_url
      status := frameWObs.status } :=
  no_change_frame_update 7 frameWProduct frameWObs rfl

/-! ### C5: delisting reconciliation and the cancellation signal -/

/-- C5 fails on the code as stated: `BaseScraper.close` invokes
`mark_delisted_products` unconditionally, so with the shared shutdown
signal set (aborted session) an Available listing absent from the
(necessarily incomplete) observed set is still delisted rather than
left untouched. -/
theorem delisting_runs_on_abort :
    closeScraper true 1 [] [delistCxProduct] =
      [{ delistCxProduct with status := ProductStatus.unavailable, on_sale := false }] := by
  decide

/-- C5 (amended): whether or not the session was cancelled, closing a
retailer's scrape session marks every listing of that retailer that is
Available and whose URL was not observed as Unavailable with on-sale
false — the reconciliation is not skipped on abort. -/
theorem delisting_amended (sd : Bool) (rid : Nat) (scraped : List String)
    (store : List ProductState) (i : Nat) (p : ProductState)
    (hp : store[i]? = some p)
    (hr : p.retailer_id = rid)
    (ha : p.status = ProductStatus.available)
    (hu : scraped.contains p.url = false) :
    (closeScraper sd rid scraped store)[i]? =
      some { p with status := ProductStatus.unavailable, on_sale := false } := by
  have hpmem : p ∈ store := by
    obtain ⟨hlen, hget⟩ := List.getElem?_eq_some.mp hp
    exact hget ▸ List.getElem_mem hlen
  unfold closeScraper markDelisted
  rw [List.getElem?_map, hp]
  simp only [Option.map_some']
  have h1 : p ∈ store.filter (fun q =>
      decide (q.retailer_id = rid) && decide (q.status = ProductStatus.available)) :=
    List.mem_filter.mpr ⟨hpmem, by simp [hr, ha]⟩
  have h2 : p.url ∈ (store.filter (fun q =>
      decide (q.retailer_id = rid) && decide (q.status = ProductStatus.available))).map
      (fun q => q.url) := List.mem_map_of_mem _ h1
  have hnotmem : p.url ∉ scraped := fun hmem => by
    simp at hu
    exact hu hmem
  have h3 : p.url ∈ ((store.filter (fun q =>
      decide (q.retailer_id = rid) && decide (q.status = ProductStatus.available))).map
      (fun q => q.url)).filter (fun u => !scraped.contains u) :=
    List.mem_filter.mpr ⟨h2, by simp [hnotmem]⟩
  rw [if_pos (List.elem_eq_true_of_mem h3)]

/-- Witness for C5 (amended) at a concrete aborted session. -/
theorem delisting_amended_witness :
    (closeScraper true 1 ["https://r1/keep"] [delistWProduct])[0]? =
      some { delistWProduct with status := ProductStatus.unavailable, on_sale := false } :=
  delisting_amended true 1 ["https://r1/keep"] [delistWProduct] 0 delistWProduct rfl rfl rfl
    (by decide)

/-! ### C1: the three deal checks -/

theorem le_foldl_min_iff (x a : ℚ) (t : List ℚ) :
    x ≤ t.foldl min a ↔ x ≤ a ∧ ∀ y ∈ t, x ≤ y := by
  induction t generalizing a with
  | nil => simp
  | cons b t' ih =>
    simp only [List.foldl_cons, ih, le_min_iff, List.mem_cons]
    constructor
    · rintro ⟨⟨h1, h2⟩, h3⟩
      refine ⟨h1, fun y hy => ?_⟩
      rcases hy with rfl | hy
      · exact h2
      · exact h3 y hy
    · rintro ⟨h1, h2⟩
      exact ⟨⟨h1, h2 b (Or.inl rfl)⟩, fun y hy => h2 y (Or.inr hy)⟩

theorem dealCheck1_iff (hist : List HistEntry) (x : ℚ) :
    ((match (hist.map (fun e => e.price)).min? with
      | some lo => decide (x ≤ lo)
      | none => false) = true) ↔ (hist ≠ [] ∧ ∀ e ∈ hist, x ≤ e.price) := by
  cases hist with
  | nil => simp
  | cons e t =>
    simp only [List.map_cons]
    rw [show ((e.price :: t.map (fun x => x.price)).min?
        = some ((t.map (fun x => x.price)).foldl min e.price)) from rfl]
    simp only [decide_eq_true_eq, le_foldl_min_iff]
    constructor
    · rintro ⟨h1, h2⟩
      refine ⟨by simp, fun e' he' => ?_⟩
      rcases List.mem_cons.mp he' with rfl | he'
      · exact h1
      · exact h2 e'.price (List.mem_map_of_mem _ he')
    · rintro ⟨_, h2⟩
      refine ⟨h2 e (List.mem_cons_self e t), fun y hy => ?_⟩
      obtain ⟨e', he', rfl⟩ := List.mem_map.mp hy
      exact h2 e' (List.mem_cons_of_mem _ he')

theorem dealCheck2_iff (cp : Option ℚ) (x : ℚ) (h0 : 0 ≤ x) :
    ((match cp with
      | some pp => !(decide (pp = 0)) && decide (x < pp * (9 / 10))
      | none => false) = true) ↔ (∃ pp, cp = some pp ∧ x < pp * (9 / 10)) := by
  cases cp with
  | none => simp
  | some pp =>
    by_cases hz : pp = 0
    · subst hz
      constructor
      · intro h
        simp at h
      · rintro ⟨pp', hpp', hlt⟩
        have hpp0 : pp' = 0 := by simpa using hpp'.symm
        subst hpp0
        rw [zero_mul] at hlt
        exact absurd hlt (not_lt.mpr h0)
    · simp [hz]

theorem dealCheck3_iff (w : List HistEntry) (x : ℚ) (h0 : 0 ≤ x)
    (hw : ∀ e ∈ w, 0 ≤ e.price) :
    ((if w.isEmpty then false
      else !(decide ((w.map (fun e => e.price)).sum / (w.length : ℚ) = 0)) &&
        decide (x < (w.map (fun e => e.price)).sum / (w.length : ℚ))) = true) ↔
    (w ≠ [] ∧ x < (w.map (fun e => e.price)).sum / (w.length : ℚ)) := by
  cases w with
  | nil => simp
  | cons e t =>
    have hsum : 0 ≤ ((e :: t).map (fun y => y.price)).sum := by
      apply List.sum_nonneg
      intro y hy
      obtain ⟨e', he', rfl⟩ := List.mem_map.mp hy
      exact hw e' he'
    simp only [List.isEmpty_cons, Bool.false_eq_true, if_false, Bool.and_eq_true,
      Bool.not_eq_true', decide_eq_false_iff_not, decide_eq_true_eq, ne_eq]
    constructor
    · rintro ⟨_, hlt⟩
      exact ⟨by simp, hlt⟩
    · rintro ⟨_, hlt⟩
      have hpos : (0 : ℚ) < ((e :: t).map (fun y => y.price)).sum / (((e :: t).length : ℕ) : ℚ) :=
        lt_of_le_of_lt h0 hlt
      exact ⟨ne_of_gt hpos, hlt⟩

/-- C1 fails on the code as stated: with the session's `autoflush=False`,
the `min` query of the all-time-low check does not see the history row
appended in the same call, so for a stored listing with no prior history
rows (price 100, new price 95, less than a 10% drop) the new price is ≤
the minimum of all history entries including the appended one, yet the
flag is set to false. -/
theorem deal_allTimeLow_counterexample :
    dealCxObs.price = some 95 ∧
    dealCxProduct.current_price ≠ dealCxObs.price ∧
    (∀ e ∈ (updateExisting 0 dealCxProduct dealCxObs).history, (95 : ℚ) ≤ e.price) ∧
    (updateExisting 0 dealCxProduct dealCxObs).on_sale = false := by
  refine ⟨rfl, by decide, by decide, ?_⟩
  have h2 : (decide ((95 : ℚ) < 100 * (9 / 10))) = false := decide_eq_false (by norm_num)
  simp [updateExisting, dealCxProduct, dealCxObs, h2]

/-- C1 (amended): for an already-stored listing whose freshly scraped
price is non-null and differs from the stored current price, the on-sale
flag is set to true iff (1) at least one history row was recorded before
this change and the new price is ≤ the minimum over those prior rows
(the row appended for this change is not visible to the check), or
(2) a previous price exists and the new price is strictly below 0.90 of
the price immediately preceding this change, or (3) prior rows exist in
the trailing 30 days and the new price is strictly below their
arithmetic mean; otherwise it is set to false.  Prices are nonnegative. -/
theorem deal_detection_amended (now : ℤ) (p : ProductState) (obs : Observation) (newP : ℚ)
    (hobs : obs.price = some newP)
    (hch : p.current_price ≠ obs.price)
    (h0 : 0 ≤ newP)
    (hh : ∀ e ∈ p.history, 0 ≤ e.price) :
    ((updateExisting now p obs).on_sale = true ↔
      ((p.history ≠ [] ∧ ∀ e ∈ p.history, newP ≤ e.price) ∨
       (∃ pp, p.current_price = some pp ∧ newP < pp * (9 / 10)) ∨
       (p.history.filter (fun e => decide (now - 30 * 86400 ≤ e.date)) ≠ [] ∧
        newP < ((p.history.filter (fun e => decide (now - 30 * 86400 ≤ e.date))).map
            (fun e => e.price)).sum /
          ((p.history.filter (fun e => decide (now - 30 * 86400 ≤ e.date))).length : ℚ)))) := by
  rw [hobs] at hch
  unfold updateExisting
  simp only [hobs]
  rw [if_pos (by simpa using hch)]
  simp only [Bool.or_assoc, Bool.or_eq_true]
  exact or_congr (dealCheck1_iff p.history newP)
    (or_congr (dealCheck2_iff p.current_price newP h0)
      (dealCheck3_iff _ newP h0 (fun e he => hh e (List.mem_of_mem_filter he))))

/-- Witness for C1 (amended): price history `[999, 950]`, previous price
950, new observation 900 — a 5.26% drop, not at or below the prior
minimum, but strictly below the 30-day mean of 950. -/
theorem deal_detection_amended_witness :
    ((updateExisting 3456000 dealWProduct dealWObs).on_sale = true ↔
      ((dealWProduct.history ≠ [] ∧ ∀ e ∈ dealWProduct.history, (900 : ℚ) ≤ e.price) ∨
       (∃ pp, dealWProduct.current_price = some pp ∧ (900 : ℚ) < pp * (9 / 10)) ∨
       (dealWProduct.history.filter
          (fun e => decide ((3456000 : ℤ) - 30 * 86400 ≤ e.date)) ≠ [] ∧
        (900 : ℚ) < ((dealWProduct.history.filter
            (fun e => decide ((3456000 : ℤ) - 30 * 86400 ≤ e.date))).map
            (fun e => e.price)).sum /
          ((dealWProduct.history.filter
            (fun e => decide ((3456000 : ℤ) - 30 * 86400 ≤ e.date))).length : ℚ)))) :=
  deal_detection_amended 3456000 dealWProduct dealWObs 900 rfl (by decide) (by decide)
    (by decide)

/-! ### C2: Pass-1 exact-key grouping -/

theorem pass1_fst (ps : List ProductState) :
    (pass1 ps).1 = ((firstOcc ((ps.filter hasValidKey).map keyOf)).filter
      (fun k2 => decide (2 ≤ (groupMembers ps k2).length))).map (mkPass1MP ps) := rfl

theorem mkPass1MP_products (ps : List ProductState) (k2 : Option Nat × String) :
    (mkPass1MP ps k2).products = groupMembers ps k2 := rfl

theorem mem_foldl_firstOcc {α : Type} [DecidableEq α] (x : α) (l : List α) :
    ∀ acc : List α,
      (x ∈ l.foldl (fun acc k => if k ∈ acc then acc else acc ++ [k]) acc ↔ x ∈ acc ∨ x ∈ l) := by
  induction l with
  | nil => intro acc; simp
  | cons a t ih =>
    intro acc
    rw [List.foldl_cons, ih]
    by_cases ha : a ∈ acc
    · simp only [ha, if_true, List.mem_cons]
      constructor
      · rintro (h | h)
        · exact Or.inl h
        · exact Or.inr (Or.inr h)
      · rintro (h | rfl | h)
        · exact Or.inl h
        · exact Or.inl ha
        · exact Or.inr h
    · simp only [ha, if_false, List.mem_append, List.mem_singleton, List.mem_cons]
      tauto

theorem mem_firstOcc {α : Type} [DecidableEq α] (x : α) (l : List α) :
    x ∈ firstOcc l ↔ x ∈ l := by
  unfold firstOcc
  rw [mem_foldl_firstOcc]
  simp

theorem nodup_foldl_firstOcc {α : Type} [DecidableEq α] (l : List α) :
    ∀ acc : List α, acc.Nodup →
      (l.foldl (fun acc k => if k ∈ acc then acc else acc ++ [k]) acc).Nodup := by
  induction l with
  | nil => intro acc h; simpa using h
  | cons a t ih =>
    intro acc h
    rw [List.foldl_cons]
    apply ih
    by_cases ha : a ∈ acc
    · simpa [ha] using h
    · rw [if_neg ha, List.nodup_append]
      refine ⟨h, List.nodup_singleton a, ?_⟩
      intro x hx hxa
      simp at hxa
      exact ha (hxa ▸ hx)

theorem nodup_firstOcc {α : Type} [DecidableEq α] (l : List α) : (firstOcc l).Nodup :=
  nodup_foldl_firstOcc l [] List.nodup_nil

theorem filter_eq_singleton_of_nodup {α : Type} [DecidableEq α] (l : List α) (x : α)
    (hn : l.Nodup) (hx : x ∈ l) : l.filter (fun y => decide (y = x)) = [x] := by
  induction l with
  | nil => cases hx
  | cons a t ih =>
    by_cases hax : a = x
    · subst hax
      have hxt : a ∉ t := (List.nodup_cons.mp hn).1
      rw [List.filter_cons_of_pos (by simp)]
      have hnil : t.filter (fun y => decide (y = a)) = [] := by
        rw [List.filter_eq_nil_iff]
        intro y hy
        simp only [decide_eq_true_eq]
        rintro rfl
        exact hxt hy
      rw [hnil]
    · rw [List.filter_cons_of_neg (by simpa using hax)]
      have hx' : x ∈ t := by
        rcases List.mem_cons.mp hx with rfl | h
        · exact absurd rfl hax
        · exact h
      exact ih (List.nodup_cons.mp hn).2 hx'

/-- C2: for every group of two or more unmerged listings sharing a
category and the same non-empty strict-normalized key (the key is an
output of `normalize_model_strict`, hence strip-fixed, so "non-empty"
is `k ≠ ""` together with a non-blank strip), Pass 1 creates exactly one
CanonicalProduct: its members are precisely the group in input order,
its canonical name is the longest original name (first-encountered on
ties), its attributes come from the extractor on that name and the
group's category; and every Pass-1 creation comes from a group of size
at least two of validly keyed listings (so size-one groups and empty
keys create nothing in Pass 1). -/
theorem pass1_exact_grouping (ps : List ProductState) (cid : Option Nat) (k : String)
    (hk : k ≠ "")
    (hkt : trimWs k.data ≠ [])
    (h2 : 2 ≤ (ps.filter (fun p => decide (p.category.map (fun c => c.id) = cid) &&
        decide (p.normalized_model = some k))).length) :
    ((pass1 ps).1.filter (fun m => decide (m.products =
        ps.filter (fun p => decide (p.category.map (fun c => c.id) = cid) &&
          decide (p.normalized_model = some k)))) =
      [{ canonical_name := longestFirst ((ps.filter (fun p =>
            decide (p.category.map (fun c => c.id) = cid) &&
            decide (p.normalized_model = some k))).map (fun p => p.name))
         brand := ((ps.filter (fun p => decide (p.category.map (fun c => c.id) = cid) &&
            decide (p.normalized_model = some k))).head?.map (fun p => p.brand)).join
         model := ((ps.filter (fun p => decide (p.category.map (fun c => c.id) = cid) &&
            decide (p.normalized_model = some k))).head?.map (fun p => p.model)).join
         category_id := cid
         attributes := parse_product_attributes
           (longestFirst ((ps.filter (fun p => decide (p.category.map (fun c => c.id) = cid) &&
              decide (p.normalized_model = some k))).map (fun p => p.name)))
           ((((ps.filter (fun p => decide (p.category.map (fun c => c.id) = cid) &&
              decide (p.normalized_model = some k))).head?.map
              (fun p => p.category)).join.map (fun c => c.name)).getD "")
         products := ps.filter (fun p => decide (p.category.map (fun c => c.id) = cid) &&
           decide (p.normalized_model = some k)) }]) ∧
    (∀ m ∈ (pass1 ps).1, 2 ≤ m.products.length ∧ ∀ p ∈ m.products, hasValidKey p = true) := by
  have hmembers : groupMembers ps (cid, k) =
      ps.filter (fun p => decide (p.category.map (fun c => c.id) = cid) &&
        decide (p.normalized_model = some k)) := by
    unfold groupMembers
    rw [List.filter_filter]
    apply List.filter_congr
    intro p _
    cases hnm : p.normalized_model with
    | none => simp [hasValidKey, keyOf, hnm, hk]
    | some k2 =>
      by_cases hkk : k2 = k
      · subst hkk
        simp [hasValidKey, keyOf, hnm, hk, hkt, Prod.ext_iff]
      · simp [hasValidKey, keyOf, hnm, Prod.ext_iff, hkk]
  constructor
  · rw [pass1_fst, List.filter_map]
    have hpoint : ((firstOcc ((ps.filter hasValidKey).map keyOf)).filter
        (fun k2 => decide (2 ≤ (groupMembers ps k2).length))).filter
          ((fun m => decide (m.products =
            ps.filter (fun p => decide (p.category.map (fun c => c.id) = cid) &&
              decide (p.normalized_model = some k)))) ∘ mkPass1MP ps) =
        ((firstOcc ((ps.filter hasValidKey).map keyOf)).filter
          (fun k2 => decide (2 ≤ (groupMembers ps k2).length))).filter
          (fun k2 => decide (k2 = (cid, k))) := by
      apply List.filter_congr
      intro k2 hk2
      simp only [Function.comp_apply, decide_eq_decide, mkPass1MP_products]
      constructor
      · intro hprod
        have hgm : groupMembers ps k2 = groupMembers ps (cid, k) := by
          rw [hmembers]
          exact hprod
        have hlen : 2 ≤ (groupMembers ps k2).length := by
          simpa using List.of_mem_filter hk2
        obtain ⟨q, hq⟩ : ∃ q, q ∈ groupMembers ps k2 := by
          cases hg : groupMembers ps k2 with
          | nil => rw [hg] at hlen; simp at hlen
          | cons a t => exact ⟨a, hg ▸ List.mem_cons_self a t⟩
        have hq1 : keyOf q = k2 := by
          have := List.of_mem_filter hq
          simpa using this
        have hq2 : keyOf q = (cid, k) := by
          have hq' : q ∈ groupMembers ps (cid, k) := hgm ▸ hq
          have := List.of_mem_filter hq'
          simpa using this
        rw [← hq1, hq2]
      · rintro rfl
        rw [hmembers]
    rw [hpoint]
    have hkeymem : (cid, k) ∈ firstOcc ((ps.filter hasValidKey).map keyOf) := by
      rw [mem_firstOcc]
      obtain ⟨q, hq⟩ : ∃ q, q ∈ ps.filter (fun p =>
          decide (p.category.map (fun c => c.id) = cid) &&
          decide (p.normalized_model = some k)) := by
        cases hg : ps.filter (fun p => decide (p.category.map (fun c => c.id) = cid) &&
            decide (p.normalized_model = some k)) with
        | nil => rw [hg] at h2; simp at h2
        | cons a t => exact ⟨a, hg ▸ List.mem_cons_self a t⟩
      have hq' : q ∈ groupMembers ps (cid, k) := hmembers ▸ hq
      have hqv : q ∈ ps.filter hasValidKey := List.mem_of_mem_filter hq'
      have hqk : keyOf q = (cid, k) := by
        have := List.of_mem_filter hq'
        simpa using this
      exact hqk ▸ List.mem_map_of_mem keyOf hqv
    have hsingle : ((firstOcc ((ps.filter hasValidKey).map keyOf)).filter
        (fun k2 => decide (2 ≤ (groupMembers ps k2).length))).filter
          (fun k2 => decide (k2 = (cid, k))) = [(cid, k)] := by
      rw [List.filter_filter]
      have heq : ∀ k2 ∈ firstOcc ((ps.filter hasValidKey).map keyOf),
          (decide (k2 = (cid, k)) && decide (2 ≤ (groupMembers ps k2).length)) =
          decide (k2 = (cid, k)) := by
        intro k2 _
        by_cases hkk : k2 = (cid, k)
        · subst hkk
          have : 2 ≤ (groupMembers ps (cid, k)).length := by
            rw [hmembers]
            exact h2
          simp [this]
        · simp [hkk]
      rw [List.filter_congr heq]
      exact filter_eq_singleton_of_nodup _ _ (nodup_firstOcc _) hkeymem
    rw [hsingle]
    simp only [List.map_cons, List.map_nil]
    congr 1
    simp only [mkPass1MP]
    rw [hmembers]
  · intro m hm
    rw [pass1_fst] at hm
    obtain ⟨k2, hk2, rfl⟩ := List.mem_map.mp hm
    have hk2len : 2 ≤ (groupMembers ps k2).length := by
      simpa using List.of_mem_filter hk2
    refine ⟨?_, ?_⟩
    · rw [mkPass1MP_products]
      exact hk2len
    · intro p hp
      rw [mkPass1MP_products] at hp
      have hp' : p ∈ ps.filter hasValidKey := List.mem_of_mem_filter hp
      exact List.of_mem_filter hp'

/-- Witness for C2 at two listings sharing the strict key
`asus geforce rtx 4070` in category 5 plus one keyless listing. -/
theorem pass1_exact_grouping_witness :
    ((pass1 [pass1WLeft, pass1WRight, pass1WKeyless]).1.filter (fun m => decide (m.products =
        [pass1WLeft, pass1WRight, pass1WKeyless].filter (fun p =>
          decide (p.category.map (fun c => c.id) = some 5) &&
          decide (p.normalized_model = some "asus geforce rtx 4070"))))).length = 1 ∧
    (∀ m ∈ (pass1 [pass1WLeft, pass1WRight, pass1WKeyless]).1,
      2 ≤ m.products.length ∧ ∀ p ∈ m.products, hasValidKey p = true) := by
  have h := pass1_exact_grouping [pass1WLeft, pass1WRight, pass1WKeyless] (some 5)
    "asus geforce rtx 4070" (by decide) (by decide) (by decide)
  exact ⟨by rw [h.1]; rfl, h.2⟩

/-! ### C3: Pass-2 threshold logic -/

theorem foldl_best_spec (score : String → String → Nat) (name : String) :
    ∀ (l : List (Nat × MergedProduct)) (acc : Option Nat × Nat),
      (∀ im ∈ l, score name im.2.canonical_name ≤
        (l.foldl (fun acc im =>
          if acc.2 < score name im.2.canonical_name then
            (some im.1, score name im.2.canonical_name)
          else acc) acc).2) ∧
      acc.2 ≤ (l.foldl (fun acc im =>
          if acc.2 < score name im.2.canonical_name then
            (some im.1, score name im.2.canonical_name)
          else acc) acc).2 ∧
      ((l.foldl (fun acc im =>
          if acc.2 < score name im.2.canonical_name then
            (some im.1, score name im.2.canonical_name)
          else acc) acc) = acc ∨
       ∃ im ∈ l, (l.foldl (fun acc im =>
          if acc.2 < score name im.2.canonical_name then
            (some im.1, score name im.2.canonical_name)
          else acc) acc).1 = some im.1 ∧
         (l.foldl (fun acc im =>
          if acc.2 < score name im.2.canonical_name then
            (some im.1, score name im.2.canonical_name)
          else acc) acc).2 = score name im.2.canonical_name) := by
  intro l
  induction l with
  | nil => intro acc; exact ⟨by simp, le_refl _, Or.inl rfl⟩
  | cons im t ih =>
    intro acc
    rw [List.foldl_cons]
    set acc2 := if acc.2 < score name im.2.canonical_name then
      (some im.1, score name im.2.canonical_name) else acc with hacc2
    obtain ⟨iha, ihb, ihc⟩ := ih acc2
    have hstep : score name im.2.canonical_name ≤ acc2.2 ∧ acc.2 ≤ acc2.2 := by
      rw [hacc2]
      by_cases hlt : acc.2 < score name im.2.canonical_name
      · simp [hlt]
        omega
      · simp [hlt]
        omega
    refine ⟨?_, le_trans hstep.2 ihb, ?_⟩
    · intro im' him'
      rcases List.mem_cons.mp him' with rfl | him'
      · exact le_trans hstep.1 ihb
      · exact iha im' him'
    · rcases ihc with heq | ⟨im', him', h1, h2⟩
      · rw [heq, hacc2]
        by_cases hlt : acc.2 < score name im.2.canonical_name
        · right
          refine ⟨im, List.mem_cons_self im t, ?_, ?_⟩
          · simp [hlt]
          · simp [hlt]
        · left
          simp [hlt]
      · exact Or.inr ⟨im', List.mem_cons_of_mem im him', h1, h2⟩

theorem bestCandidate_spec (score : String → String → Nat) (name : String)
    (committed : List MergedProduct) (catId : Nat) :
    (∀ im ∈ committed.enum.filter (fun im => decide (im.2.category_id = some catId)),
      score name im.2.canonical_name ≤ (bestCandidate score name committed catId).2) ∧
    ((bestCandidate score name committed catId).1 = none ∧
        (bestCandidate score name committed catId).2 = 0 ∨
     ∃ im ∈ committed.enum.filter (fun im => decide (im.2.category_id = some catId)),
        (bestCandidate score name committed catId).1 = some im.1 ∧
        (bestCandidate score name committed catId).2 = score name im.2.canonical_name) := by
  obtain ⟨ha, _, hc⟩ := foldl_best_spec score name
    (committed.enum.filter (fun im => decide (im.2.category_id = some catId))) (none, 0)
  refine ⟨ha, ?_⟩
  rcases hc with heq | h
  · left
    unfold bestCandidate
    rw [heq]
    exact ⟨rfl, rfl⟩
  · right
    exact h

/-- C3 (amended): for a deferred listing (not yet a member of any
CanonicalProduct in the session), Pass 2 behaves as follows.  If the
highest token-set similarity between the listing's name and the
canonical names of the already-committed CanonicalProducts of the same
category is at least the threshold 96, the listing is appended to that
highest-scoring candidate (a same-category candidate achieving the
maximum).  If the highest score is 95 or lower, fuzzy matching does not
attach it: when exactly one committed CanonicalProduct (of any category)
has a canonical name equal to the listing's name, the listing is
appended there; when none has, a new CanonicalProduct is created seeded
from this single listing's name, brand, model and freshly extracted
attributes; and when two or more committed CanonicalProducts share that
name, the exact-name lookup's `scalar_one_or_none` raises
`MultipleResultsFound` — the listing is attached to nothing and the
category batch is rolled back. -/
theorem pass2_fuzzy_threshold (score : String → String → Nat) (catId : Nat) (catName : String)
    (committed pending : List MergedProduct) (p : ProductState)
    (hmem1 : memberOfAny p committed = false)
    (hmem2 : memberOfAny p pending = false) :
    (SIMILARITY_THRESHOLD ≤ (bestCandidate score p.name committed catId).2 →
      ∃ i m, (bestCandidate score p.name committed catId).1 = some i ∧
        committed[i]? = some m ∧ m.category_id = some catId ∧
        score p.name m.canonical_name = (bestCandidate score p.name committed catId).2 ∧
        (∀ im ∈ committed.enum.filter (fun im => decide (im.2.category_id = some catId)),
          score p.name im.2.canonical_name ≤ score p.name m.canonical_name) ∧
        pass2Product score catId catName (committed, pending) p =
          Except.ok (attachAt committed i p, pending)) ∧
    ((bestCandidate score p.name committed catId).2 ≤ 95 →
      ∀ i, (committed.enum.filter (fun im => decide (im.2.canonical_name = p.name))).map
          (fun im => im.1) = [i] →
        pass2Product score catId catName (committed, pending) p =
          Except.ok (attachAt committed i p, pending)) ∧
    ((bestCandidate score p.name committed catId).2 ≤ 95 →
      committed.enum.filter (fun im => decide (im.2.canonical_name = p.name)) = [] →
      pass2Product score catId catName (committed, pending) p =
        Except.ok (committed, pending ++ [mkSingleMP catName catId p])) ∧
    ((bestCandidate score p.name committed catId).2 ≤ 95 →
      ∀ i j t, (committed.enum.filter (fun im => decide (im.2.canonical_name = p.name))).map
          (fun im => im.1) = i :: j :: t →
        pass2Product score catId catName (committed, pending) p = Except.error ()) := by
  obtain ⟨hbound, hachieved⟩ := bestCandidate_spec score p.name committed catId
  refine ⟨?_, ?_, ?_, ?_⟩
  · intro hth
    rcases hachieved with ⟨_, h0⟩ | ⟨im, him, h1, h2⟩
    · rw [h0] at hth
      exact absurd hth (by norm_num [SIMILARITY_THRESHOLD])
    · have hcat : im.2.category_id = some catId := by
        have := List.of_mem_filter him
        simpa using this
      have hget : committed[im.1]? = some im.2 :=
        List.mk_mem_enum_iff_getElem?.mp (List.mem_of_mem_filter him)
      refine ⟨im.1, im.2, h1, hget, hcat, h2.symm, ?_, ?_⟩
      · intro im' him'
        rw [← h2]
        exact hbound im' him'
      · have hguard : (decide (SIMILARITY_THRESHOLD ≤
            (bestCandidate score p.name committed catId).2) &&
            (bestCandidate score p.name committed catId).1.isSome) = true := by
          simp [h1, hth]
        simp only [pass2Product, hmem1, hmem2, Bool.or_self, Bool.false_eq_true, if_false,
          hguard, if_true, h1]
        rw [if_pos (by simp [hth])]
  · intro hth i hmatch
    have hguard : (decide (SIMILARITY_THRESHOLD ≤
        (bestCandidate score p.name committed catId).2) &&
        (bestCandidate score p.name committed catId).1.isSome) = false := by
      have hn : ¬ (SIMILARITY_THRESHOLD ≤ (bestCandidate score p.name committed catId).2) := by
        simp only [SIMILARITY_THRESHOLD]
        omega
      simp [hn]
    simp only [pass2Product, hmem1, hmem2, Bool.or_self, Bool.false_eq_true, if_false,
      hguard, hmatch]
  · intro hth hmatch
    have hguard : (decide (SIMILARITY_THRESHOLD ≤
        (bestCandidate score p.name committed catId).2) &&
        (bestCandidate score p.name committed catId).1.isSome) = false := by
      have hn : ¬ (SIMILARITY_THRESHOLD ≤ (bestCandidate score p.name committed catId).2) := by
        simp only [SIMILARITY_THRESHOLD]
        omega
      simp [hn]
    simp only [pass2Product, hmem1, hmem2, Bool.or_self, Bool.false_eq_true, if_false,
      hguard, hmatch, List.map_nil]
  · intro hth i j t hmatch
    have hguard : (decide (SIMILARITY_THRESHOLD ≤
        (bestCandidate score p.name committed catId).2) &&
        (bestCandidate score p.name committed catId).1.isSome) = false := by
      have hn : ¬ (SIMILARITY_THRESHOLD ≤ (bestCandidate score p.name committed catId).2) := by
        simp only [SIMILARITY_THRESHOLD]
        omega
      simp [hn]
    simp only [pass2Product, hmem1, hmem2, Bool.or_self, Bool.false_eq_true, if_false,
      hguard, hmatch]

/-- Witness for C3: one committed candidate in category 5, a constant
score of 96, a listing that is not yet a member anywhere. -/
theorem pass2_fuzzy_threshold_witness :
    (SIMILARITY_THRESHOLD ≤ (bestCandidate c3Score c3Listing.name [c3Candidate] 5).2 →
      ∃ i m, (bestCandidate c3Score c3Listing.name [c3Candidate] 5).1 = some i ∧
        [c3Candidate][i]? = some m ∧ m.category_id = some 5 ∧
        c3Score c3Listing.name m.canonical_name =
          (bestCandidate c3Score c3Listing.name [c3Candidate] 5).2 ∧
        (∀ im ∈ ([c3Candidate].enum.filter (fun im => decide (im.2.category_id = some 5))),
          c3Score c3Listing.name im.2.canonical_name ≤
            c3Score c3Listing.name m.canonical_name) ∧
        pass2Product c3Score 5 "Graphics Cards" ([c3Candidate], []) c3Listing =
          Except.ok (attachAt [c3Candidate] i c3Listing, [])) ∧
    ((bestCandidate c3Score c3Listing.name [c3Candidate] 5).2 ≤ 95 →
      ∀ i, ([c3Candidate].enum.filter
          (fun im => decide (im.2.canonical_name = c3Listing.name))).map (fun im => im.1) = [i] →
        pass2Product c3Score 5 "Graphics Cards" ([c3Candidate], []) c3Listing =
          Except.ok (attachAt [c3Candidate] i c3Listing, [])) ∧
    ((bestCandidate c3Score c3Listing.name [c3Candidate] 5).2 ≤ 95 →
      [c3Candidate].enum.filter (fun im => decide (im.2.canonical_name = c3Listing.name)) = [] →
      pass2Product c3Score 5 "Graphics Cards" ([c3Candidate], []) c3Listing =
        Except.ok ([c3Candidate], [] ++ [mkSingleMP "Graphics Cards" 5 c3Listing])) ∧
    ((bestCandidate c3Score c3Listing.name [c3Candidate] 5).2 ≤ 95 →
      ∀ i j t, ([c3Candidate].enum.filter
          (fun im => decide (im.2.canonical_name = c3Listing.name))).map (fun im => im.1) =
          i :: j :: t →
        pass2Product c3Score 5 "Graphics Cards" ([c3Candidate], []) c3Listing =
          Except.error ()) :=
  pass2_fuzzy_threshold c3Score 5 "Graphics Cards" [c3Candidate] [] c3Listing
    (by decide) (by decide)

/-- C3: the claimed exact-name fallback — "attached to any existing
CanonicalProduct (in any category) whose canonical name exactly equals
the listing's name" — fails when several committed CanonicalProducts
share that name.  Here two committed Monitors products are both named
"Iris Panel 24" (left behind by the reachable batch of `c3DupSrcA` /
`c3DupSrcB`); a later listing of the same name in Graphics Cards finds
no same-category fuzzy candidate, and the exact-name lookup's
`scalar_one_or_none` raises `MultipleResultsFound`: the listing is
attached to nothing, the category rolls back, and the remaining
categories are skipped. -/
theorem pass2_exact_multi_counterexample :
    memberOfAny c3DupListing [c3DupA, c3DupB] = false ∧
    (bestCandidate zeroScore c3DupListing.name [c3DupA, c3DupB] 5).2 ≤ 95 ∧
    c3DupA.canonical_name = c3DupListing.name ∧
    c3DupB.canonical_name = c3DupListing.name ∧
    pass2Category zeroScore [c3DupA, c3DupB] 5 "Graphics Cards" [c3DupListing] =
      Except.error () ∧
    pass2All zeroScore [c3DupA, c3DupB] [(5, "Graphics Cards", [c3DupListing])] =
      ([c3DupA, c3DupB], false) :=
  ⟨by decide, by decide, by decide, by decide, rfl, rfl⟩

/-! ### C8: resolver idempotence -/

theorem memberOfAny_append (p : ProductState) (a b : List MergedProduct) :
    memberOfAny p (a ++ b) = (memberOfAny p a || memberOfAny p b) := by
  unfold memberOfAny
  exact List.any_append

theorem memberOfAny_of_mem (p : ProductState) (m : MergedProduct) (mps : List MergedProduct)
    (hm : m ∈ mps) (q : ProductState) (hqm : q ∈ m.products) (hqi : q.id = p.id) :
    memberOfAny p mps = true := by
  unfold memberOfAny
  rw [List.any_eq_true]
  refine ⟨m, hm, ?_⟩
  rw [List.any_eq_true]
  exact ⟨q, hqm, by simp [hqi]⟩

theorem attachAt_eq_set (mps : List MergedProduct) (i : Nat) (q : ProductState)
    (m : MergedProduct) (hi : mps[i]? = some m) :
    attachAt mps i q = mps.set i { m with products := m.products ++ [q] } := by
  unfold attachAt
  rw [hi]

theorem memberOfAny_set_mono (p q : ProductState) (mps : List MergedProduct) (i : Nat)
    (m : MergedProduct) (hi : mps[i]? = some m) (h : memberOfAny p mps = true) :
    memberOfAny p (mps.set i { m with products := m.products ++ [q] }) = true := by
  unfold memberOfAny at h
  rw [List.any_eq_true] at h
  obtain ⟨m0, hm0, hany⟩ := h
  obtain ⟨j, hj, hj2⟩ := List.mem_iff_getElem.mp hm0
  by_cases hij : i = j
  · subst hij
    have hm : m0 = m := by
      have : mps[i]? = some m0 := by
        rw [List.getElem?_eq_getElem hj]
        exact congrArg some hj2
      rw [this] at hi
      exact Option.some.inj hi
    subst hm
    have hset : (mps.set i { m0 with products := m0.products ++ [q] })[i]? =
        some { m0 with products := m0.products ++ [q] } :=
      List.getElem?_set_self (by simpa using hj)
    have hmem : ({ m0 with products := m0.products ++ [q] } : MergedProduct) ∈
        mps.set i { m0 with products := m0.products ++ [q] } :=
      List.getElem?_mem hset
    rw [List.any_eq_true] at hany
    obtain ⟨q0, hq0, hq0i⟩ := hany
    apply memberOfAny_of_mem p _ _ hmem q0 (List.mem_append_left _ hq0)
    simpa using hq0i
  · have hset : (mps.set i { m with products := m.products ++ [q] })[j]? = some m0 := by
      rw [List.getElem?_set_ne hij, List.getElem?_eq_getElem hj]
      exact congrArg some hj2
    have hmem : m0 ∈ mps.set i { m with products := m.products ++ [q] } :=
      List.getElem?_mem hset
    rw [List.any_eq_true] at hany
    obtain ⟨q0, hq0, hq0i⟩ := hany
    apply memberOfAny_of_mem p _ _ hmem q0 hq0
    simpa using hq0i

theorem memberOfAny_set_self (q : ProductState) (mps : List MergedProduct) (i : Nat)
    (m : MergedProduct) (hi : mps[i]? = some m) :
    memberOfAny q (mps.set i { m with products := m.products ++ [q] }) = true := by
  have hlen : i < mps.length := by
    obtain ⟨hlt, _⟩ := List.getElem?_eq_some.mp hi
    exact hlt
  have hset : (mps.set i { m with products := m.products ++ [q] })[i]? =
      some { m with products := m.products ++ [q] } :=
    List.getElem?_set_self (by simpa using hlen)
  have hmem : ({ m with products := m.products ++ [q] } : MergedProduct) ∈
      mps.set i { m with products := m.products ++ [q] } :=
    List.getElem?_mem hset
  exact memberOfAny_of_mem q _ _ hmem q (List.mem_append_right _ (List.mem_singleton_self q)) rfl

theorem pass2Product_ok_shape (score : String → String → Nat) (catId : Nat) (catName : String)
    (cm pend : List MergedProduct) (q : ProductState)
    (st' : List MergedProduct × List MergedProduct)
    (h : pass2Product score catId catName (cm, pend) q = Except.ok st') :
    ((memberOfAny q cm || memberOfAny q pend) = true ∧ st' = (cm, pend)) ∨
    (∃ i m, cm[i]? = some m ∧
      st' = (cm.set i { m with products := m.products ++ [q] }, pend)) ∨
    st' = (cm, pend ++ [mkSingleMP catName catId q]) := by
  simp only [pass2Product] at h
  by_cases hg : (memberOfAny q cm || memberOfAny q pend) = true
  · rw [if_pos hg] at h
    exact Or.inl ⟨hg, (Except.ok.inj h).symm⟩
  · rw [if_neg hg] at h
    by_cases hth : (decide (SIMILARITY_THRESHOLD ≤ (bestCandidate score q.name cm catId).2) &&
        (bestCandidate score q.name cm catId).1.isSome) = true
    · rw [if_pos hth] at h
      cases hbc : (bestCandidate score q.name cm catId).1 with
      | none => rw [hbc] at hth; simp at hth
      | some i =>
        rw [hbc] at h
        obtain ⟨_, hach⟩ := bestCandidate_spec score q.name cm catId
        rcases hach with ⟨hn, _⟩ | ⟨im, him, h1, _⟩
        · rw [hbc] at hn; cases hn
        · have hii : i = im.1 := by
            rw [hbc] at h1
            exact Option.some.inj h1
          have hget : cm[im.1]? = some im.2 :=
            List.mk_mem_enum_iff_getElem?.mp (List.mem_of_mem_filter him)
          have hst : st' = (attachAt cm i q, pend) := (Except.ok.inj h).symm
          refine Or.inr (Or.inl ⟨i, im.2, hii ▸ hget, ?_⟩)
          rw [hst, attachAt_eq_set cm i q im.2 (hii ▸ hget)]
    · rw [if_neg hth] at h
      cases hmt : (cm.enum.filter (fun im => decide (im.2.canonical_name = q.name))).map
          (fun im => im.1) with
      | nil =>
        rw [hmt] at h
        exact Or.inr (Or.inr (Except.ok.inj h).symm)
      | cons i rest =>
        cases rest with
        | nil =>
          rw [hmt] at h
          have hlen1 : (cm.enum.filter
              (fun im => decide (im.2.canonical_name = q.name))).length = 1 := by
            have := congrArg List.length hmt
            simpa using this
          obtain ⟨im, him⟩ := List.length_eq_one.mp hlen1
          have himmem : im ∈ cm.enum.filter (fun im => decide (im.2.canonical_name = q.name)) := by
            rw [him]
            exact List.mem_singleton_self im
          have him1 : im.1 = i := by
            rw [him] at hmt
            simpa using hmt
          have hget : cm[im.1]? = some im.2 :=
            List.mk_mem_enum_iff_getElem?.mp (List.mem_of_mem_filter himmem)
          have hst : st' = (attachAt cm i q, pend) := (Except.ok.inj h).symm
          refine Or.inr (Or.inl ⟨i, im.2, him1 ▸ hget, ?_⟩)
          rw [hst, attachAt_eq_set cm i q im.2 (him1 ▸ hget)]
        | cons j rest2 =>
          rw [hmt] at h
          cases h

theorem foldlM_pass2_members (score : String → String → Nat) (catId : Nat) (catName : String) :
    ∀ (members : List ProductState) (cm pend : List MergedProduct)
      (st : List MergedProduct × List MergedProduct),
      List.foldlM (pass2Product score catId catName) (cm, pend) members = Except.ok st →
      (∀ p, (memberOfAny p cm || memberOfAny p pend) = true →
        (memberOfAny p st.1 || memberOfAny p st.2) = true) ∧
      (∀ q ∈ members, (memberOfAny q st.1 || memberOfAny q st.2) = true) := by
  intro members
  induction members with
  | nil =>
    intro cm pend st h
    have hst : st = (cm, pend) := (Except.ok.inj h).symm
    subst hst
    exact ⟨fun p hp => hp, by simp⟩
  | cons q rest ih =>
    intro cm pend st h
    have hbind : pass2Product score catId catName (cm, pend) q >>=
        (fun s => List.foldlM (pass2Product score catId catName) s rest) = Except.ok st := h
    cases hq : pass2Product score catId catName (cm, pend) q with
    | error e =>
      rw [hq] at hbind
      simp [Bind.bind, Except.bind] at hbind
    | ok st1 =>
      rw [hq] at hbind
      have hrest : List.foldlM (pass2Product score catId catName) st1 rest = Except.ok st := by
        simpa [Bind.bind, Except.bind] using hbind
      have hrest' : List.foldlM (pass2Product score catId catName) (st1.1, st1.2) rest =
          Except.ok st := by
        simpa using hrest
      obtain ⟨ihmono, ihmem⟩ := ih st1.1 st1.2 st hrest'
      have hmono1 : ∀ p, (memberOfAny p cm || memberOfAny p pend) = true →
          (memberOfAny p st1.1 || memberOfAny p st1.2) = true := by
        intro p hp
        rcases pass2Product_ok_shape score catId catName cm pend q st1 hq with
          ⟨_, hst1⟩ | ⟨i, m, hi, hst1⟩ | hst1
        · rw [hst1]
          exact hp
        · rw [hst1]
          simp only
          rcases Bool.or_eq_true_iff.mp hp with hc | hpend
          · exact Bool.or_eq_true_iff.mpr (Or.inl (memberOfAny_set_mono p q cm i m hi hc))
          · exact Bool.or_eq_true_iff.mpr (Or.inr hpend)
        · rw [hst1]
          simp only
          rcases Bool.or_eq_true_iff.mp hp with hc | hpend
          · exact Bool.or_eq_true_iff.mpr (Or.inl hc)
          · rw [memberOfAny_append]
            rcases Bool.or_eq_true_iff.mp hp with hc | hpend2
            · exact Bool.or_eq_true_iff.mpr (Or.inl hc)
            · exact Bool.or_eq_true_iff.mpr (Or.inr (Bool.or_eq_true_iff.mpr (Or.inl hpend2)))
      have hqself : (memberOfAny q st1.1 || memberOfAny q st1.2) = true := by
        rcases pass2Product_ok_shape score catId catName cm pend q st1 hq with
          ⟨hg, hst1⟩ | ⟨i, m, hi, hst1⟩ | hst1
        · rw [hst1]
          exact hg
        · rw [hst1]
          simp only
          exact Bool.or_eq_true_iff.mpr (Or.inl (memberOfAny_set_self q cm i m hi))
        · rw [hst1]
          simp only
          apply Bool.or_eq_true_iff.mpr
          right
          rw [memberOfAny_append]
          apply Bool.or_eq_true_iff.mpr
          right
          exact memberOfAny_of_mem q (mkSingleMP catName catId q) _
            (List.mem_singleton_self _) q (List.mem_singleton_self q) rfl
      refine ⟨fun p hp => ihmono p (hmono1 p hp), ?_⟩
      intro q2 hq2
      rcases List.mem_cons.mp hq2 with rfl | hq2
      · exact ihmono q2 hqself
      · exact ihmem q2 hq2

theorem pass2Category_facts (score : String → String → Nat) (c0 : List MergedProduct)
    (catId : Nat) (catName : String) (members : List ProductState) (c2 : List MergedProduct)
    (h : pass2Category score c0 catId catName members = Except.ok c2) :
    (∀ p, memberOfAny p c0 = true → memberOfAny p c2 = true) ∧
    (∀ q ∈ members, memberOfAny q c2 = true) := by
  unfold pass2Category at h
  cases hf : List.foldlM (pass2Product score catId catName) (c0, []) members with
  | error e =>
    rw [hf] at h
    simp [Except.map] at h
  | ok st =>
    rw [hf] at h
    have hc2 : c2 = st.1 ++ st.2 := by
      have : Except.ok (st.1 ++ st.2) = (Except.ok c2 : Except Unit (List MergedProduct)) := by
        simpa [Except.map] using h
      exact (Except.ok.inj this).symm
    obtain ⟨hmono, hmem⟩ := foldlM_pass2_members score catId catName members c0 [] st hf
    constructor
    · intro p hp
      rw [hc2, memberOfAny_append]
      exact hmono p (by simp [hp])
    · intro q hq
      rw [hc2, memberOfAny_append]
      exact hmem q hq

theorem pass2All_facts (score : String → String → Nat) :
    ∀ (groups : List (Nat × String × List ProductState)) (c0 : List MergedProduct),
      (∀ p, memberOfAny p c0 = true →
        memberOfAny p (pass2All score c0 groups).1 = true) ∧
      ((pass2All score c0 groups).2 = true →
        ∀ g ∈ groups, ∀ q ∈ g.2.2, memberOfAny q (pass2All score c0 groups).1 = true) := by
  intro groups
  induction groups with
  | nil => intro c0; exact ⟨fun p hp => hp, by simp⟩
  | cons g gs ih =>
    intro c0
    cases hcat : pass2Category score c0 g.1 g.2.1 g.2.2 with
    | error e =>
      constructor
      · intro p hp
        show memberOfAny p (pass2All score c0 (g :: gs)).1 = true
        unfold pass2All
        rw [hcat]
        exact hp
      · intro hok
        exfalso
        have : (pass2All score c0 (g :: gs)).2 = false := by
          unfold pass2All
          rw [hcat]
        rw [this] at hok
        cases hok
    | ok c2 =>
      obtain ⟨hmono2, hmem2⟩ := pass2Category_facts score c0 g.1 g.2.1 g.2.2 c2 hcat
      have hred : pass2All score c0 (g :: gs) = pass2All score c2 gs := by
        have hstep : pass2All score c0 (g :: gs) =
            match pass2Category score c0 g.1 g.2.1 g.2.2 with
            | Except.ok cnext => pass2All score cnext gs
            | Except.error _ => (c0, false) := rfl
        rw [hstep, hcat]
      obtain ⟨ihmono, ihmem⟩ := ih c2
      constructor
      · intro p hp
        rw [hred]
        exact ihmono p (hmono2 p hp)
      · intro hok g2 hg2 q hq
        rw [hred] at hok ⊢
        rcases List.mem_cons.mp hg2 with rfl | hg2
        · exact ihmono q (hmem2 q hq)
        · exact ihmem hok g2 hg2 q hq

theorem pass1_snd (ps : List ProductState) :
    (pass1 ps).2 = ps.filter (fun p => !hasValidKey p) ++
      ((firstOcc ((ps.filter hasValidKey).map keyOf)).filter
        (fun k2 => decide ((groupMembers ps k2).length ≤ 1))).flatMap (groupMembers ps) := rfl

theorem pass1_mem_created_or_leftover (ps : List ProductState) (p : ProductState)
    (hp : p ∈ ps) :
    memberOfAny p (pass1 ps).1 = true ∨ p ∈ (pass1 ps).2 := by
  by_cases hv : hasValidKey p = true
  · have hkeyed : p ∈ ps.filter hasValidKey := List.mem_filter.mpr ⟨hp, hv⟩
    have hgrp : p ∈ groupMembers ps (keyOf p) := by
      unfold groupMembers
      exact List.mem_filter.mpr ⟨hkeyed, by simp⟩
    have hkmem : keyOf p ∈ firstOcc ((ps.filter hasValidKey).map keyOf) := by
      rw [mem_firstOcc]
      exact List.mem_map_of_mem keyOf hkeyed
    by_cases h2 : 2 ≤ (groupMembers ps (keyOf p)).length
    · left
      rw [pass1_fst]
      have hkf : keyOf p ∈ (firstOcc ((ps.filter hasValidKey).map keyOf)).filter
          (fun k2 => decide (2 ≤ (groupMembers ps k2).length)) :=
        List.mem_filter.mpr ⟨hkmem, by simp [h2]⟩
      have hmk : mkPass1MP ps (keyOf p) ∈ ((firstOcc ((ps.filter hasValidKey).map keyOf)).filter
          (fun k2 => decide (2 ≤ (groupMembers ps k2).length))).map (mkPass1MP ps) :=
        List.mem_map_of_mem (mkPass1MP ps) hkf
      apply memberOfAny_of_mem p (mkPass1MP ps (keyOf p)) _ hmk p _ rfl
      rw [mkPass1MP_products]
      exact hgrp
    · right
      rw [pass1_snd]
      apply List.mem_append_right
      rw [List.mem_flatMap]
      refine ⟨keyOf p, ?_, hgrp⟩
      exact List.mem_filter.mpr ⟨hkmem, by simp; omega⟩
  · right
    rw [pass1_snd]
    apply List.mem_append_left
    exact List.mem_filter.mpr ⟨hp, by simp [hv]⟩

theorem catGroups_mem (ls : List ProductState) (p : ProductState) (hp : p ∈ ls)
    (hc : p.category.isSome = true) :
    ∃ g ∈ catGroups ls, p ∈ g.2.2 := by
  have hwc : p ∈ ls.filter (fun q => q.category.isSome) := List.mem_filter.mpr ⟨hp, hc⟩
  have hcid : ((p.category.map (fun cat => cat.id)).getD 0) ∈
      firstOcc ((ls.filter (fun q => q.category.isSome)).map
        (fun q => ((q.category.map (fun cat => cat.id)).getD 0))) := by
    rw [mem_firstOcc]
    exact List.mem_map_of_mem _ hwc
  refine ⟨_, List.mem_map_of_mem _ hcid, ?_⟩
  simp only
  exact List.mem_filter.mpr ⟨hwc, by simp⟩

/-- C8: re-running the identity resolver over the same store (distinct
listing ids, every listing categorized) directly after a successful run
changes nothing: the first run left every listing a member of some
CanonicalProduct, so they are all excluded from the second run's input,
no CanonicalProduct is created and no membership is added. -/
theorem resolver_idempotent (score : String → String → Nat) (store : Store)
    (_hids : (store.products.map (fun p => p.id)).Nodup)
    (hcat : ∀ p ∈ store.products, p.category.isSome = true)
    (hok : (mergeRun score store).2 = true) :
    mergeRun score (mergeRun score store).1 = ((mergeRun score store).1, true) := by
  by_cases hE : (store.products.filter (fun p => !memberOfAny p store.merged)).isEmpty = true
  · have h1 : mergeRun score store = (store, true) := by
      unfold mergeRun
      rw [if_pos hE]
    rw [h1]
    exact h1
  · have hrun : mergeRun score store =
        ({ store with merged := (pass2All score
            (store.merged ++ (pass1 (store.products.filter
              (fun p => !memberOfAny p store.merged))).1)
            (catGroups (pass1 (store.products.filter
              (fun p => !memberOfAny p store.merged))).2)).1 },
          (pass2All score
            (store.merged ++ (pass1 (store.products.filter
              (fun p => !memberOfAny p store.merged))).1)
            (catGroups (pass1 (store.products.filter
              (fun p => !memberOfAny p store.merged))).2)).2) := by
      unfold mergeRun
      rw [if_neg hE]
    have hok2 : (pass2All score
        (store.merged ++ (pass1 (store.products.filter
          (fun p => !memberOfAny p store.merged))).1)
        (catGroups (pass1 (store.products.filter
          (fun p => !memberOfAny p store.merged))).2)).2 = true := by
      rw [hrun] at hok
      exact hok
    obtain ⟨hmono, hmemfact⟩ := pass2All_facts score
      (catGroups (pass1 (store.products.filter
        (fun p => !memberOfAny p store.merged))).2)
      (store.merged ++ (pass1 (store.products.filter
        (fun p => !memberOfAny p store.merged))).1)
    have hall : ∀ p ∈ store.products, memberOfAny p (pass2All score
        (store.merged ++ (pass1 (store.products.filter
          (fun p => !memberOfAny p store.merged))).1)
        (catGroups (pass1 (store.products.filter
          (fun p => !memberOfAny p store.merged))).2)).1 = true := by
      intro p hp
      by_cases hm : memberOfAny p store.merged = true
      · apply hmono
        rw [memberOfAny_append]
        simp [hm]
      · have hmf : memberOfAny p store.merged = false := by
          cases hx : memberOfAny p store.merged
          · rfl
          · exact absurd hx hm
        have hpU : p ∈ store.products.filter (fun p => !memberOfAny p store.merged) :=
          List.mem_filter.mpr ⟨hp, by simp [hmf]⟩
        rcases pass1_mem_created_or_leftover _ p hpU with hcre | hleft
        · apply hmono
          rw [memberOfAny_append]
          simp [hcre]
        · obtain ⟨g, hg, hpg⟩ := catGroups_mem _ p hleft (hcat p hp)
          exact hmemfact hok2 g hg p hpg
    have hE2 : (store.products.filter (fun p => !memberOfAny p (pass2All score
        (store.merged ++ (pass1 (store.products.filter
          (fun p => !memberOfAny p store.merged))).1)
        (catGroups (pass1 (store.products.filter
          (fun p => !memberOfAny p store.merged))).2)).1)).isEmpty = true := by
      rw [List.isEmpty_iff, List.filter_eq_nil_iff]
      intro p hp
      simp [hall p hp]
    rw [hrun]
    unfold mergeRun
    rw [if_pos hE2]

/-- Witness for C8: a three-listing store (two share a strict key, one
is keyless) on which the first run succeeds. -/
theorem resolver_idempotent_witness :
    mergeRun zeroScore (mergeRun zeroScore c8Store).1 = ((mergeRun zeroScore c8Store).1, true) :=
  resolver_idempotent zeroScore c8Store (by decide) (by decide) (by decide)

/-! ### C4 groundwork: collapse and strip normal forms -/

theorem dropWhile_head_false {p : Char → Bool} {l t : List Char} {c : Char}
    (h : l.dropWhile p = c :: t) : p c = false := by
  induction l with
  | nil => cases h
  | cons a l ih =>
    rw [List.dropWhile_cons] at h
    by_cases hp : p a = true
    · rw [if_pos hp] at h
      exact ih h
    · rw [if_neg hp] at h
      cases h
      exact Bool.not_eq_true _ ▸ (by simpa using hp)

theorem headNotSpace_dropWhile (l : List Char) :
    headNotSpace (l.dropWhile isSpaceChar) = true := by
  cases hd : l.dropWhile isSpaceChar with
  | nil => rfl
  | cons c t =>
    have := dropWhile_head_false hd
    simp [headNotSpace, this]

theorem dropWhile_of_headNotSpace {l : List Char} (h : headNotSpace l = true) :
    l.dropWhile isSpaceChar = l := by
  cases l with
  | nil => rfl
  | cons c t =>
    have hc : isSpaceChar c = false := by simpa [headNotSpace] using h
    rw [List.dropWhile_cons, if_neg (by simp [hc])]

theorem dropWhile_idem (p : Char → Bool) (l : List Char) :
    (l.dropWhile p).dropWhile p = l.dropWhile p := by
  cases hd : l.dropWhile p with
  | nil => rfl
  | cons c t =>
    have := dropWhile_head_false hd
    rw [List.dropWhile_cons, if_neg (by simp [this])]

theorem wsClean_tail {c : Char} {cs : List Char} (h : wsClean (c :: cs) = true) :
    wsClean cs = true := by
  simp only [wsClean, Bool.and_eq_true] at h
  exact h.2

theorem headNotSpace_collapseGo (f : Nat) (w : List Char) (h : headNotSpace w = true) :
    headNotSpace (collapseGo f w) = true := by
  cases w with
  | nil => cases f <;> rfl
  | cons c cs =>
    have hc : isSpaceChar c = false := by simpa [headNotSpace] using h
    cases f with
    | zero => exact h
    | succ f =>
      simp only [collapseGo, hc, Bool.false_eq_true, if_false]
      simp [headNotSpace, hc]

theorem wsClean_collapseGo : ∀ (f : Nat) (w : List Char), w.length ≤ f →
    wsClean (collapseGo f w) = true := by
  intro f
  induction f with
  | zero =>
    intro w hw
    have : w = [] := List.length_eq_zero.mp (Nat.le_zero.mp hw)
    subst this
    rfl
  | succ f ih =>
    intro w hw
    cases w with
    | nil => rfl
    | cons c cs =>
      simp only [List.length_cons, Nat.succ_le_succ_iff] at hw
      by_cases hc : isSpaceChar c = true
      · simp only [collapseGo, hc, if_true]
        have hlen : (cs.dropWhile isSpaceChar).length ≤ f :=
          le_trans (List.IsSuffix.length_le (List.dropWhile_suffix _)) hw
        have hclean := ih (cs.dropWhile isSpaceChar) hlen
        have hhead := headNotSpace_collapseGo f (cs.dropWhile isSpaceChar)
          (headNotSpace_dropWhile cs)
        simp [wsClean, isSpaceChar, hclean, hhead]
      · simp only [collapseGo, hc, Bool.false_eq_true, if_false]
        have hclean := ih cs hw
        simp [wsClean, hc, hclean]

theorem collapseGo_of_wsClean : ∀ (w : List Char), wsClean w = true →
    ∀ f, collapseGo f w = w := by
  intro w
  induction w with
  | nil => intro _ f; cases f <;> rfl
  | cons c cs ih =>
    intro h f
    have hcs := wsClean_tail h
    cases f with
    | zero => rfl
    | succ f =>
      by_cases hc : isSpaceChar c = true
      · have hcc : c = spaceChar ∧ headNotSpace cs = true := by
          simp only [wsClean, hc, if_true, Bool.and_eq_true, decide_eq_true_eq] at h
          exact ⟨h.1.1, h.1.2⟩
        simp only [collapseGo, hc, if_true]
        rw [dropWhile_of_headNotSpace hcc.2, ih hcs f, hcc.1]
      · simp only [collapseGo, hc, Bool.false_eq_true, if_false]
        rw [ih hcs f]

theorem wsClean_take : ∀ (w : List Char), wsClean w = true →
    ∀ n, wsClean (w.take n) = true := by
  intro w
  induction w with
  | nil => intro _ n; simp [wsClean]
  | cons c cs ih =>
    intro h n
    have hcs := wsClean_tail h
    cases n with
    | zero => rfl
    | succ n =>
      rw [List.take_succ_cons]
      by_cases hc : isSpaceChar c = true
      · have hcc : c = spaceChar ∧ headNotSpace cs = true := by
          simp only [wsClean, hc, if_true, Bool.and_eq_true, decide_eq_true_eq] at h
          exact ⟨h.1.1, h.1.2⟩
        have hhead : headNotSpace (cs.take n) = true := by
          cases cs with
          | nil => simp [headNotSpace]
          | cons d ds =>
            cases n with
            | zero => simp [headNotSpace]
            | succ n =>
              rw [List.take_succ_cons]
              simpa [headNotSpace] using hcc.2
        simp [wsClean, hc, hcc.1, hhead, ih hcs n]
      · simp [wsClean, hc, ih hcs n]

theorem wsClean_dropWhile (w : List Char) (h : wsClean w = true) :
    wsClean (w.dropWhile isSpaceChar) = true := by
  induction w with
  | nil => simpa using h
  | cons c cs ih =>
    by_cases hc : isSpaceChar c = true
    · rw [List.dropWhile_cons, if_pos (by simp [hc])]
      exact ih (wsClean_tail h)
    · rw [List.dropWhile_cons, if_neg (by simp [hc])]
      exact h

theorem headNotSpace_of_prefix {l₁ l₂ : List Char} (hp : l₁ <+: l₂)
    (h : headNotSpace l₂ = true) : headNotSpace l₁ = true := by
  cases l₁ with
  | nil => rfl
  | cons c cs =>
    obtain ⟨t, ht⟩ := hp
    subst ht
    simpa [headNotSpace] using h

theorem wsClean_of_prefix {l₁ l₂ : List Char} (hp : l₁ <+: l₂)
    (h : wsClean l₂ = true) : wsClean l₁ = true := by
  rw [List.prefix_iff_eq_take.mp hp]
  exact wsClean_take l₂ h _

theorem mem_collapseGo {cm : Char} : ∀ (f : Nat) (v : List Char),
    cm ∈ collapseGo f v → cm ∈ v ∨ cm = spaceChar := by
  intro f
  induction f with
  | zero => intro v hv; cases v <;> exact Or.inl hv
  | succ f ih =>
    intro v hv
    cases v with
    | nil => exact Or.inl hv
    | cons d ds =>
      by_cases hd : isSpaceChar d = true
      · simp only [collapseGo, hd, if_true, List.mem_cons] at hv
        rcases hv with hv | hv
        · exact Or.inr hv
        · rcases ih _ hv with hm | hm
          · exact Or.inl (List.mem_cons_of_mem d
              ((List.dropWhile_sublist _).mem hm))
          · exact Or.inr hm
      · simp only [collapseGo, hd, Bool.false_eq_true, if_false, List.mem_cons] at hv
        rcases hv with hv | hv
        · exact Or.inl (hv ▸ List.mem_cons_self d ds)
        · rcases ih _ hv with hm | hm
          · exact Or.inl (List.mem_cons_of_mem d hm)
          · exact Or.inr hm

theorem mem_trimWs {cm : Char} {v : List Char} (h : cm ∈ trimWs v) : cm ∈ v := by
  unfold trimWs at h
  rw [List.mem_reverse] at h
  have h1 := (List.dropWhile_sublist isSpaceChar).mem h
  rw [List.mem_reverse] at h1
  exact (List.dropWhile_sublist isSpaceChar).mem h1

theorem isUpperChar_eq_false_of_kept {cm : Char} (h : isKeptChar cm = true) :
    isUpperChar cm = false := by
  simp only [isKeptChar, Bool.or_eq_true] at h
  rcases h with (h | h) | h
  · simp only [isLowerChar, Bool.and_eq_true, decide_eq_true_eq] at h
    simp only [isUpperChar, Bool.and_eq_false_iff]
    right
    simp only [decide_eq_false_iff_not, not_le]
    exact lt_of_lt_of_le (by decide) h.1
  · simp only [isDigitChar, Bool.and_eq_true, decide_eq_true_eq] at h
    simp only [isUpperChar, Bool.and_eq_false_iff]
    left
    simp only [decide_eq_false_iff_not, not_le]
    exact lt_of_le_of_lt h.2 (by decide)
  · simp only [isSpaceChar, Bool.or_eq_true, decide_eq_true_eq] at h
    rcases h with ((((h | h) | h) | h) | h) | h <;> subst h <;> decide

theorem lowerChar_of_kept {cm : Char} (h : isKeptChar cm = true) :
    lowerChar cm = cm := by
  rw [lowerChar, isUpperChar_eq_false_of_kept h]
  simp

theorem map_id_of_forall (f : Char → Char) :
    ∀ l : List Char, (∀ c ∈ l, f c = c) → l.map f = l := by
  intro l
  induction l with
  | nil => intro _; rfl
  | cons c cs ih =>
    intro h
    rw [List.map_cons, h c (List.mem_cons_self c cs),
      ih (fun d hd => h d (List.mem_cons_of_mem c hd))]

theorem stripKeywords_id (kws : List String) :
    ∀ l : List Char, (∀ kw ∈ kws, containsSubL kw.data l = false) →
      stripKeywords kws l = l := by
  induction kws with
  | nil => intro l _; rfl
  | cons k ks ih =>
    intro l h
    show stripKeywords ks (replaceAllL k.data l) = l
    rw [replaceAllL_of_not_contains k.data l (h k (List.mem_cons_self k ks))]
    exact ih l (fun kw hkw => h kw (List.mem_cons_of_mem k hkw))

/-- The facts the shared pipeline tail
`trimWs (collapseWsL (keepAlnumSpace u))` guarantees about its output:
every char survives `[^a-z0-9\s]` removal, whitespace is down to single
plain spaces, and neither end is whitespace. -/
theorem pipeline_tail_facts (u : List Char) :
    (∀ cm ∈ trimWs (collapseWsL (keepAlnumSpace u)), isKeptChar cm = true) ∧
    wsClean (trimWs (collapseWsL (keepAlnumSpace u))) = true ∧
    headNotSpace (trimWs (collapseWsL (keepAlnumSpace u))) = true ∧
    headNotSpace (trimWs (collapseWsL (keepAlnumSpace u))).reverse = true := by
  have hkept : ∀ cm ∈ trimWs (collapseWsL (keepAlnumSpace u)), isKeptChar cm = true := by
    intro cm hm
    have h1 := mem_trimWs hm
    rcases mem_collapseGo _ _ h1 with h2 | h2
    · exact List.of_mem_filter h2
    · subst h2; decide
  have hv : wsClean (collapseWsL (keepAlnumSpace u)) = true :=
    wsClean_collapseGo _ _ le_rfl
  have hv1clean : wsClean ((collapseWsL (keepAlnumSpace u)).dropWhile isSpaceChar) = true :=
    wsClean_dropWhile _ hv
  have hv1head : headNotSpace ((collapseWsL (keepAlnumSpace u)).dropWhile isSpaceChar) = true :=
    headNotSpace_dropWhile _
  have hpfx : (trimWs (collapseWsL (keepAlnumSpace u))) <+:
      ((collapseWsL (keepAlnumSpace u)).dropWhile isSpaceChar) := by
    unfold trimWs
    rw [← List.reverse_suffix]
    simpa using List.dropWhile_suffix isSpaceChar
  refine ⟨hkept, wsClean_of_prefix hpfx hv1clean, headNotSpace_of_prefix hpfx hv1head, ?_⟩
  unfold trimWs
  rw [List.reverse_reverse]
  exact headNotSpace_dropWhile _

theorem trimWs_id {w : List Char} (h1 : headNotSpace w = true)
    (h2 : headNotSpace w.reverse = true) : trimWs w = w := by
  unfold trimWs
  rw [dropWhile_of_headNotSpace h1, dropWhile_of_headNotSpace h2,
    List.reverse_reverse]

/-- If `w` satisfies the pipeline-tail facts and neither a strip keyword
nor the unit pattern occurs in it, the strict normalizer pipeline fixes it. -/
theorem normalizeStrictL_fixed (w : List Char)
    (hkept : ∀ cm ∈ w, isKeptChar cm = true)
    (hclean : wsClean w = true)
    (hhead : headNotSpace w = true)
    (hlast : headNotSpace w.reverse = true)
    (hkw : ∀ kw ∈ stripKeywordsStrict, containsSubL kw.data w = false)
    (hum : hasUnitMatchL w = false) :
    normalizeStrictL w = w := by
  have hlow : lowerL w = w :=
    map_id_of_forall lowerChar w (fun cm hm => lowerChar_of_kept (hkept cm hm))
  have hkeep : keepAlnumSpace w = w := List.filter_eq_self.mpr hkept
  unfold normalizeStrictL
  rw [hlow, stripKeywords_id stripKeywordsStrict w hkw, subUnitsL_of_no_match w hum,
    hkeep]
  rw [show collapseWsL w = w from collapseGo_of_wsClean w hclean w.length]
  exact trimWs_id hhead hlast

/-- Same for the loose normalizer. -/
theorem normalizeLooseL_fixed (w : List Char)
    (hkept : ∀ cm ∈ w, isKeptChar cm = true)
    (hclean : wsClean w = true)
    (hhead : headNotSpace w = true)
    (hlast : headNotSpace w.reverse = true)
    (hkw : ∀ kw ∈ stripKeywordsLoose, containsSubL kw.data w = false)
    (hum : hasLooseMatchL false w = false) :
    normalizeLooseL w = w := by
  have hlow : lowerL w = w :=
    map_id_of_forall lowerChar w (fun cm hm => lowerChar_of_kept (hkept cm hm))
  have hkeep : keepAlnumSpace w = w := List.filter_eq_self.mpr hkept
  unfold normalizeLooseL
  rw [hlow, stripKeywords_id stripKeywordsLoose w hkw, subLooseL_of_no_match w hum,
    hkeep]
  rw [show collapseWsL w = w from collapseGo_of_wsClean w hclean w.length]
  exact trimWs_id hhead hlast

/-- C4: the claimed unconditional idempotence of the two normalizers
fails.  `normalize_model_strict "oeditionc"` strips the keyword
`edition`, splicing the remaining letters into the fresh keyword `oc`;
a second application strips that, so `f (f x) ≠ f x`.  The loose
normalizer shares the strict keyword list and fails on the same input. -/
theorem normalize_idem_counterexample :
    normalize_model_strict (normalize_model_strict "oeditionc") ≠
      normalize_model_strict "oeditionc" ∧
    normalize_model_loose (normalize_model_loose "oeditionc") ≠
      normalize_model_loose "oeditionc" := by
  refine ⟨?_, ?_⟩ <;> decide

/-- C4 (amended): the normalizers are idempotent on every input whose
first normalization contains no strip keyword and no occurrence of the
respective unit pattern.  Keyword stripping can splice adjacent letters
into a fresh keyword (see the counterexample), which is the only source
of non-idempotence: when the first output is keyword- and pattern-free,
every pipeline stage fixes it — it is already lowercase, reduced to
`[a-z0-9 ]`, single-spaced and trimmed. -/
theorem normalize_idem_amended (x : String)
    (hks : stripKeywordsStrict.all
      (fun kw => !containsSubL kw.data (normalize_model_strict x).data) = true)
    (hus : hasUnitMatchL (normalize_model_strict x).data = false)
    (hkl : stripKeywordsLoose.all
      (fun kw => !containsSubL kw.data (normalize_model_loose x).data) = true)
    (hul : hasLooseMatchL false (normalize_model_loose x).data = false) :
    normalize_model_strict (normalize_model_strict x) = normalize_model_strict x ∧
    normalize_model_loose (normalize_model_loose x) = normalize_model_loose x := by
  rw [List.all_eq_true] at hks hkl
  constructor
  · by_cases hx : x = ""
    · subst hx; rfl
    · by_cases hy0 : normalize_model_strict x = ""
      · rw [hy0]; rfl
      · have hyd : (normalize_model_strict x).data = normalizeStrictL x.data := by
          rw [normalize_model_strict, if_neg hx]
        have hfacts := pipeline_tail_facts
          (subUnitsL (stripKeywords stripKeywordsStrict (lowerL x.data)))
        rw [show trimWs (collapseWsL (keepAlnumSpace
            (subUnitsL (stripKeywords stripKeywordsStrict (lowerL x.data))))) =
            (normalize_model_strict x).data from hyd.symm] at hfacts
        have hfix := normalizeStrictL_fixed (normalize_model_strict x).data
          hfacts.1 hfacts.2.1 hfacts.2.2.1 hfacts.2.2.2
          (fun kw hkw => by simpa using hks kw hkw) hus
        rw [normalize_model_strict, if_neg hy0, hfix]
  · by_cases hx : x = ""
    · subst hx; rfl
    · by_cases hy0 : normalize_model_loose x = ""
      · rw [hy0]; rfl
      · have hyd : (normalize_model_loose x).data = normalizeLooseL x.data := by
          rw [normalize_model_loose, if_neg hx]
        have hfacts := pipeline_tail_facts
          (subLooseL (stripKeywords stripKeywordsLoose (lowerL x.data)))
        rw [show trimWs (collapseWsL (keepAlnumSpace
            (subLooseL (stripKeywords stripKeywordsLoose (lowerL x.data))))) =
            (normalize_model_loose x).data from hyd.symm] at hfacts
        have hfix := normalizeLooseL_fixed (normalize_model_loose x).data
          hfacts.1 hfacts.2.1 hfacts.2.2.1 hfacts.2.2.2
          (fun kw hkw => by simpa using hkl kw hkw) hul
        rw [normalize_model_loose, if_neg hy0, hfix]

/-- Witness for the amended C4 theorem at a concrete product name. -/
theorem normalize_idem_amended_witness :
    normalize_model_strict (normalize_model_strict idemWInput) =
      normalize_model_strict idemWInput ∧
    normalize_model_loose (normalize_model_loose idemWInput) =
      normalize_model_loose idemWInput :=
  normalize_idem_amended idemWInput (by decide) (by decide) (by decide) (by decide)

end PCDeal
